import Mathlib

/-!
# small_shell: a shallow embedding of the shell's C sources

The development follows the C files of the repository:

* `input_funcs.c`: `arg_str`, `strip_newline`, `comment_or_space`, `expand_pid`, `tokenize`;
* `shell_process.c`: `sigtstp_handler`, `make_sigtstp_struct`, `make_sigint_struct`,
  `cleanup_bg`, `exit_shell`, `add_node`, `bg_proc`, `fg_proc`;
* `main.c`: the signal set-up and the body of the read-dispatch loop.

Conventions.  A C string is the list of its characters before the terminating NUL.
A C function that may end the process is given a result of type `Ctl`: it returns,
calls `exit`, runs into undefined behaviour, or (for a loop driven by a step budget)
is still running when the budget is used up.  Results of system calls are parameters.
-/

namespace SmallShell

/-! ## Common types -/

/-- The characters of a C string, terminator excluded. -/
abbrev CStr := List Char

/-- How a call of a C function ends. -/
inductive Ctl (α : Type) where
  /-- the function returns to its caller -/
  | ret (a : α)
  /-- the process ends through `exit(code)` -/
  | exit (code : Nat)
  /-- undefined behaviour (NULL dereference, read of a cell never written) -/
  | crash
  /-- the step budget of a loop was used up before the loop ended -/
  | spin
  deriving DecidableEq, Repr

def NUL : Char := Char.ofNat 0
def NEWLINE : Char := Char.ofNat 10
def SPACE : Char := ' '
def HASH : Char := '#'
def DOLLAR : Char := '$'

/-- The string "$$" searched by `expand_pid`. -/
def DOLLARS : CStr := [DOLLAR, DOLLAR]
/-- The token "&". -/
def AMP : CStr := ['&']
/-- The token "<". -/
def LT : CStr := ['<']
/-- The token ">". -/
def GT : CStr := ['>']

/-! ## input_funcs.c -/

/-- The C string held by a buffer: its characters up to the first NUL. -/
def cstr (buf : List Char) : CStr := buf.takeWhile (fun c => c != NUL)

/-- `strip_newline(string, length)`: the character at index `length - 1` becomes NUL.
The buffer is given without its own terminator; the result is the buffer after the store. -/
def strip_newline (string : List Char) (length : Nat) : List Char :=
  string.set (length - 1) NUL

/-- `comment_or_space(string)`: true when the string starts with `#` or when only
spaces precede its terminator. -/
def comment_or_space (string : CStr) : Bool :=
  if string.head? = some HASH then true
  else
    match string.dropWhile (fun c => c == SPACE) with
    | [] => true
    | _ :: _ => false

/-- `arg_str()`, as a function of what `getline` delivered: `none` when `getline`
returned -1, otherwise the characters read (the newline included when there was one;
`getline` never returns 0).  The result `ret none` is the NULL return. -/
def arg_str (getline : Option (List Char)) : Ctl (Option CStr) :=
  match getline with
  | none => .ret none
  | some line =>
    let line_len := line.length
    if line_len = 1 then .ret none
    else if line_len > 2049 then .exit 1
    else
      let s := cstr (strip_newline line line_len)
      if comment_or_space s then .ret none else .ret (some s)

/-- `strstr(haystack, needle)`: the suffix of the haystack that starts at the first
occurrence of the needle, `none` for NULL. -/
def strstr : CStr → CStr → Option CStr
  | [], needle => if needle = [] then some [] else none
  | c :: t, needle => if needle.isPrefixOf (c :: t) then some (c :: t) else strstr t needle

/-- First loop of `expand_pid`: counts the occurrences of "$$" with `strstr`, moving
`token_cpy` two characters past each hit.  `none`: budget used up. -/
def count_dollars : Nat → CStr → Nat → Option Nat
  | 0, _, _ => none
  | fuel + 1, token_cpy, num_dollars =>
    match strstr token_cpy DOLLARS with
    | none => some num_dollars
    | some dollar_ptr =>
      let next := dollar_ptr.drop 2
      if next = [] then some (num_dollars + 1)
      else count_dollars fuel next (num_dollars + 1)

/-- Second loop of `expand_pid`: `while (temp > 0) { temp /= 10; num_chars++; }`.
`none`: budget used up. -/
def count_digits : Nat → Int → Nat → Option Nat
  | 0, _, _ => none
  | fuel + 1, temp, num_chars =>
    if temp > 0 then count_digits fuel (Int.tdiv temp 10) (num_chars + 1)
    else some num_chars

/-- What `sprintf(buf, "%d", n)` stores. -/
def sprintf_d (n : Int) : CStr :=
  if n < 0 then '-' :: Nat.toDigits 10 n.natAbs else Nat.toDigits 10 n.natAbs

/-- Third loop of `expand_pid`: the characters stored through `expanded_str_cpy`.
At "$$" the first `num_chars` characters of `pid_str` are copied and the token
advances by two; any other character is copied as it is. -/
def copy_loop (pid_str : CStr) (num_chars : Nat) : CStr → CStr
  | [] => []
  | c :: rest =>
    match rest with
    | [] => [c]
    | c2 :: rest2 =>
      if c = DOLLAR ∧ c2 = DOLLAR then pid_str.take num_chars ++ copy_loop pid_str num_chars rest2
      else c :: copy_loop pid_str num_chars (c2 :: rest2)

/-- The value of `expanded_size` in `expand_pid`. -/
def expanded_size (token : CStr) (num_dollars num_chars : Nat) : Int :=
  (token.length : Int) - 2 * num_dollars + num_chars * num_dollars + 1

/-- `expand_pid(token)`, with the value of `getpid()` as a parameter. -/
def expand_pid (token : CStr) (getpid : Int) : Ctl CStr :=
  match count_dollars (token.length + 1) token 0 with
  | none => .spin
  | some 0 => .ret token
  | some num_dollars =>
    let procID := getpid
    match count_digits (procID.toNat + 1) procID 0 with
    | none => .spin
    | some num_chars =>
      let pid_str := sprintf_d procID
      if expanded_size token num_dollars num_chars > 2049 then .exit 1
      else .ret (copy_loop pid_str num_chars token)

/-- Specification side: the number of occurrences of "$$" met when the token is read
left to right without overlap. -/
def occurrences : CStr → Nat
  | [] => 0
  | c :: rest =>
    match rest with
    | [] => 0
    | c2 :: rest2 =>
      if c = DOLLAR ∧ c2 = DOLLAR then occurrences rest2 + 1
      else occurrences (c2 :: rest2)

/-- Specification side: the token with each occurrence of "$$" (left to right,
without overlap) replaced by `rep`, all other characters kept in order. -/
def substitute (rep : CStr) : CStr → CStr
  | [] => []
  | c :: rest =>
    match rest with
    | [] => [c]
    | c2 :: rest2 =>
      if c = DOLLAR ∧ c2 = DOLLAR then rep ++ substitute rep rest2
      else c :: substitute rep (c2 :: rest2)

/-- Sequencing of calls: the continuation runs only after a normal return. -/
def Ctl.bind {α β : Type} (x : Ctl α) (f : α → Ctl β) : Ctl β :=
  match x with
  | .ret a => f a
  | .exit c => .exit c
  | .crash => .crash
  | .spin => .spin

/-- One call of `strtok_r` with the delimiter string " ", on the text the scan has
reached: leading spaces are skipped; `none` is the NULL return (nothing but spaces
left); otherwise the token and the text after the delimiter that ended it. -/
def strtok_r (s : CStr) : Option (CStr × CStr) :=
  match s.dropWhile (fun c => c == SPACE) with
  | [] => none
  | c :: t =>
    some ((c :: t).takeWhile (fun x => x != SPACE),
          ((c :: t).dropWhile (fun x => x != SPACE)).drop 1)

/-- The part of `command_info.args` that `tokenize` has stored to: `cells[k]` is
`args[k]` (`none` for NULL), and `writes` logs the index of every store in program
order.  Cells beyond `cells.length` hold whatever the array held before the call. -/
structure ArgsMem where
  cells : List (Option CStr)
  writes : List Nat
  deriving DecidableEq, Repr

/-- The store `args[idx] = v`.  Every store of `tokenize` goes to a cell already
stored to or to the first cell after them. -/
def ArgsMem.store (m : ArgsMem) (idx : Nat) (v : Option CStr) : ArgsMem :=
  { cells := if idx < m.cells.length then m.cells.set idx v else m.cells ++ [v],
    writes := m.writes ++ [idx] }

/-- The read of `args[idx]`; reading a cell that was never stored to is undefined. -/
def ArgsMem.load (m : ArgsMem) (idx : Nat) : Ctl (Option CStr) :=
  match m.cells.get? idx with
  | none => .crash
  | some v => .ret v

/-- The test `strcmp(p, s) == 0`; a NULL `p` is undefined behaviour. -/
def strcmp_eq (p : Option CStr) (s : CStr) : Ctl Bool :=
  match p with
  | none => .crash
  | some t => .ret (decide (t = s))

/-- `struct command_info` (command_info.h); `args` holds the cells of the array that
were stored to. -/
structure command_info where
  args : List (Option CStr)
  stdin_file : Option CStr
  stdout_file : Option CStr
  background : Int
  deriving DecidableEq, Repr

/-- The variables of `tokenize` that its loops change. -/
structure TokState where
  mem : ArgsMem
  stdin_file : Option CStr
  stdout_file : Option CStr
  background : Int
  deriving DecidableEq, Repr

/-- The loop `while ((token = strtok_r(NULL, " ", &saveptr)) != NULL)` of `tokenize`;
returns the final `i` with the state. -/
def token_loop (getpid : Int) : Nat → CStr → Nat → TokState → Ctl (Nat × TokState)
  | 0, _, _, _ => .spin
  | fuel + 1, saveptr, i, st =>
    match strtok_r saveptr with
    | none => .ret (i, st)
    | some (token, saveptr2) =>
      (expand_pid token getpid).bind fun e =>
      let mem := st.mem.store i (some e)
      (mem.load (i - 1)).bind fun prev =>
      (strcmp_eq prev LT).bind fun isLt =>
      if isLt then
        token_loop getpid fuel saveptr2 (i + 1) { st with mem := mem, stdin_file := some e }
      else
        (strcmp_eq prev GT).bind fun isGt =>
        if isGt then
          token_loop getpid fuel saveptr2 (i + 1) { st with mem := mem, stdout_file := some e }
        else
          token_loop getpid fuel saveptr2 (i + 1) { st with mem := mem }

/-- The inner loop `while (j<i) { args[j] = NULL; j++; }`; returns the memory.  It is
entered with `j < i` and leaves `j` equal to `i`. -/
def null_loop : Nat → Nat → Nat → ArgsMem → Ctl ArgsMem
  | 0, _, _, _ => .spin
  | fuel + 1, j, i, m =>
    if j < i then null_loop fuel (j + 1) i (m.store j none) else .ret m

/-- The loop `for (j=0; j<i; j++)` of `tokenize`. -/
def strip_loop : Nat → Nat → Nat → ArgsMem → Ctl ArgsMem
  | 0, _, _, _ => .spin
  | fuel + 1, j, i, m =>
    if j < i then
      (m.load j).bind fun a =>
      (strcmp_eq a AMP).bind fun isAmp =>
      if isAmp then
        (m.load (j + 1)).bind fun nxt =>
        if nxt = none then strip_loop fuel (j + 1) i (m.store j none)
        else strip_loop fuel (j + 1) i m
      else
        (strcmp_eq a LT).bind fun isLt =>
        (if isLt then Ctl.ret true else strcmp_eq a GT).bind fun isRedir =>
        if isRedir then
          (null_loop (i - j + 1) j i m).bind fun m2 =>
          strip_loop fuel (i + 1) i m2
        else strip_loop fuel (j + 1) i m
    else .ret m

/-- `tokenize(inp_str, command_struct)` with the value of `getpid()` as a parameter:
the final values of the struct members together with the log of stores to `args`. -/
def tokenize_run (inp_str : CStr) (getpid : Int) : Ctl TokState :=
  match strtok_r inp_str with
  | none => .crash
  | some (token, saveptr) =>
    (expand_pid token getpid).bind fun e =>
    let st0 : TokState :=
      { mem := ArgsMem.store { cells := [], writes := [] } 0 (some e),
        stdin_file := none, stdout_file := none, background := 0 }
    (token_loop getpid (inp_str.length + 1) saveptr 1 st0).bind fun (i, st) =>
    let mem := st.mem.store i none
    (mem.load (i - 1)).bind fun last =>
    (strcmp_eq last AMP).bind fun isAmp =>
    let background := if isAmp then 1 else st.background
    (strip_loop (i + 1) 0 i mem).bind fun mem2 =>
    .ret { st with mem := mem2, background := background }

/-- The struct as `tokenize` leaves it. -/
def tokenize (inp_str : CStr) (getpid : Int) : Ctl command_info :=
  (tokenize_run inp_str getpid).bind fun st =>
  .ret { args := st.mem.cells, stdin_file := st.stdin_file,
         stdout_file := st.stdout_file, background := st.background }

/-- The indices of `args` that `tokenize` stores to, in program order. -/
def tokenize_writes (inp_str : CStr) (getpid : Int) : Ctl (List Nat) :=
  (tokenize_run inp_str getpid).bind fun st => .ret st.mem.writes

/-- The argument vector that `execvp` and the built-in tests see: the entries of
`args` before the first NULL. -/
def argv (args : List (Option CStr)) : List CStr :=
  (args.takeWhile Option.isSome).filterMap id

/-! ### Specification side of the tokenizer -/

/-- Specification side: the tokens that successive `strtok_r` calls deliver. -/
def tokens_of : Nat → CStr → List CStr
  | 0, _ => []
  | fuel + 1, s =>
    match strtok_r s with
    | none => []
    | some (t, rest) => t :: tokens_of fuel rest

/-- Specification side: the tokens of a line, its maximal runs of non-space characters. -/
def tokens (s : CStr) : List CStr := tokens_of (s.length + 1) s

/-- Specification side: `expand_pid` applied to the tokens from left to right. -/
def expand_all (getpid : Int) : List CStr → Ctl (List CStr)
  | [] => .ret []
  | t :: ts =>
    (expand_pid t getpid).bind fun e =>
    (expand_all getpid ts).bind fun es => .ret (e :: es)

/-- Specification side: the file name stored for the redirection symbol `sym`, the
argument that follows the last occurrence of `sym` as an argument. -/
def redir_scan (sym : CStr) : Option CStr → List CStr → Option CStr → Option CStr
  | _, [], cur => cur
  | prev, e :: es, cur => redir_scan sym (some e) es (if prev = some sym then some e else cur)

/-- Specification side: the cells `args[j..i]` after the clean-up loop has run over the
arguments from position `j` on (the last cell is the terminating NULL). -/
def strip_spec : List CStr → List (Option CStr)
  | [] => [none]
  | t :: ts =>
    if t = AMP then (if ts = [] then [none, none] else some t :: strip_spec ts)
    else if t = LT ∨ t = GT then List.replicate (ts.length + 1) none ++ [none]
    else some t :: strip_spec ts

/-- Specification side: the indices the clean-up loop stores to, from position `j` on. -/
def strip_writes : Nat → List CStr → List Nat
  | _, [] => []
  | j, t :: ts =>
    if t = AMP then (if ts = [] then [j] else strip_writes (j + 1) ts)
    else if t = LT ∨ t = GT then List.range' j (ts.length + 1)
    else strip_writes (j + 1) ts

/-- Specification side: the state `tokenize` ends in when the expanded tokens are `es`. -/
def finish (es : List CStr) : TokState :=
  { mem := { cells := strip_spec es,
             writes := List.range' 0 (es.length + 1) ++ strip_writes 0 es },
    stdin_file := redir_scan LT none es none,
    stdout_file := redir_scan GT none es none,
    background := if es.getLast? = some AMP then 1 else 0 }

/-- Specification side: the token is one of the redirection symbols "<" and ">". -/
def is_redir (t : CStr) : Bool := decide (t = LT ∨ t = GT)

/-- Specification side: what the clean-up leaves of the arguments `es`: with a
redirection symbol among them, the arguments before the first one; without, all of
them except a final "&". -/
def kept_args (es : List CStr) : List CStr :=
  if es.any is_redir then es.takeWhile (fun t => !is_redir t)
  else if es.getLast? = some AMP then es.dropLast
  else es

/-- A line of 512 one-letter arguments separated by single spaces, as `getline`
delivers it (1023 characters and the newline). -/
def line512 : List Char := (List.replicate 511 ['a', SPACE]).flatten ++ ['a', NEWLINE]

/-! ## shell_process.c: signals and child processes -/

/-- Signal numbers (Linux). -/
def SIGINT : Nat := 2
def SIGTERM : Nat := 15
def SIGTSTP : Nat := 20

/-- A signal set, as its membership test. -/
abbrev sigset_t := Nat → Bool

/-- `sigfillset(&set)`. -/
def sigfillset (_set : sigset_t) : sigset_t := fun _ => true
/-- The values of `sa_handler` that occur: the two standard dispositions and the
address of `sigtstp_handler`. -/
inductive sighandler_t where
  | SIG_DFL
  | SIG_IGN
  | sigtstp_handler
  deriving DecidableEq, Repr

/-- `struct sigaction`, the members the shell sets. -/
structure sigaction where
  sa_handler : sighandler_t
  sa_mask : sigset_t
  sa_flags : Int

/-- The initialiser `{0}` of a `struct sigaction`. -/
def sigaction_zero : sigaction :=
  { sa_handler := .SIG_DFL, sa_mask := fun _ => false, sa_flags := 0 }

/-- `make_sigtstp_struct(sig)`. -/
def make_sigtstp_struct (sig : sigaction) : sigaction :=
  { sa_handler := .sigtstp_handler, sa_mask := sigfillset sig.sa_mask, sa_flags := 0 }

/-- `make_sigint_struct(sig)`. -/
def make_sigint_struct (sig : sigaction) : sigaction :=
  { sa_handler := .SIG_IGN, sa_mask := sigfillset sig.sa_mask, sa_flags := 0 }

/-- The access modes and creation flags passed to `open`. -/
inductive OFlag where
  | O_RDONLY
  | O_WRONLY
  | O_CREAT
  | O_TRUNC
  deriving DecidableEq, Repr

/-- A library or system call made by a process, arguments first; `open` and `dup2` carry
the value they returned. -/
inductive Sys where
  | sigaction (signum : Nat) (act : sigaction)
  | open (path : CStr) (flags : List OFlag) (mode : Option Nat) (ret : Int)
  | dup2 (oldfd newfd : Int) (ret : Int)
  | execvp (file : Option CStr) (args : List CStr)
  | printf (text : CStr)
  | perror (s : Option CStr)
  | exit (status : Nat)

/-- The path "/dev/null" held by `devnull` in `bg_proc`. -/
def devnull : CStr := "/dev/null".toList

/-- What the operating system answers to the calls of a forked child, call site by call
site: the value returned by the `open` and by the `dup2` for standard input, by the
`open` and by the `dup2` for standard output, and whether `execvp` fails (it returns,
with -1, only when it fails). -/
structure ChildEnv where
  open_in : Int
  dup_in : Int
  open_out : Int
  dup_out : Int
  exec_fails : Bool

/-- The flags `O_WRONLY | O_CREAT | O_TRUNC`. -/
def out_flags : List OFlag := [.O_WRONLY, .O_CREAT, .O_TRUNC]

/-- The child branch (`case 0:`) of `bg_proc`: its calls in program order, up to the
`exit` or to the `execvp` that replaces the process image. -/
def bg_child (command : command_info) (env : ChildEnv) : List Sys :=
  let sigtstp_action : sigaction :=
    { sa_handler := .SIG_IGN, sa_mask := sigfillset sigaction_zero.sa_mask, sa_flags := 0 }
  let in_path := match command.stdin_file with
    | some f => f
    | none => devnull
  let infile := env.open_in
  Sys.sigaction SIGTSTP sigtstp_action ::
  Sys.open in_path [.O_RDONLY] none infile ::
  if infile = -1 then [Sys.exit 1]
  else
    let dup_result := env.dup_in
    Sys.dup2 infile 0 dup_result ::
    if dup_result = -1 then [Sys.exit 1]
    else
      let out_path := match command.stdout_file with
        | some f => f
        | none => devnull
      let outfile := env.open_out
      Sys.open out_path out_flags (some 0o660) outfile ::
      if outfile = -1 then [Sys.exit 1]
      else
        let dup_result := env.dup_out
        Sys.dup2 outfile 1 dup_result ::
        if dup_result = -1 then [Sys.exit 1]
        else
          Sys.execvp (command.args.head?.join) (argv command.args) ::
          if env.exec_fails then [Sys.exit 1] else []

/-- The standard-input part of the child branch of `fg_proc`, followed by `rest` when
no call failed. -/
def fg_child_stdin (command : command_info) (env : ChildEnv) (rest : List Sys) : List Sys :=
  match command.stdin_file with
  | none => rest
  | some f =>
    let infile := env.open_in
    Sys.open f [.O_RDONLY] none infile ::
    if infile = -1 then
      [Sys.printf "Error opening file for stdin redirection\n".toList, Sys.exit 1]
    else
      let dup_result := env.dup_in
      Sys.dup2 infile 0 dup_result ::
      if dup_result = -1 then
        [Sys.printf "Error while redirecting stdin: dup2() function\n".toList, Sys.exit 1]
      else rest

/-- The standard-output part of the child branch of `fg_proc`, followed by `rest` when
no call failed. -/
def fg_child_stdout (command : command_info) (env : ChildEnv) (rest : List Sys) : List Sys :=
  match command.stdout_file with
  | none => rest
  | some f =>
    let outfile := env.open_out
    Sys.open f out_flags (some 0o660) outfile ::
    if outfile = -1 then [Sys.perror (some "open".toList), Sys.exit 1]
    else
      let dup_result := env.dup_out
      Sys.dup2 outfile 1 dup_result ::
      if dup_result = -1 then [Sys.perror (some "dup2".toList), Sys.exit 1]
      else rest

/-- The child branch (`case 0:`) of `fg_proc`: its calls in program order, up to the
`exit` or to the `execvp` that replaces the process image. -/
def fg_child (command : command_info) (env : ChildEnv) : List Sys :=
  let sigint_action : sigaction :=
    { sa_handler := .SIG_DFL, sa_mask := sigfillset sigaction_zero.sa_mask, sa_flags := 0 }
  let sigtstp_action : sigaction :=
    { sa_handler := .SIG_IGN, sa_mask := sigfillset sigaction_zero.sa_mask, sa_flags := 0 }
  Sys.sigaction SIGINT sigint_action ::
  Sys.sigaction SIGTSTP sigtstp_action ::
  fg_child_stdin command env
    (fg_child_stdout command env
      (Sys.execvp (command.args.head?.join) (argv command.args) ::
        if env.exec_fails then [Sys.perror (command.args.head?.join), Sys.exit 1] else []))

/-- The signal set-up at the start of `main`: the parent's two `sigaction` calls. -/
def main_signals : List Sys :=
  [Sys.sigaction SIGINT (make_sigint_struct sigaction_zero),
   Sys.sigaction SIGTSTP (make_sigtstp_struct sigaction_zero)]

/-! ### Reading a trace of calls -/

/-- The `sigaction` calls of a trace. -/
def sigactions : List Sys → List (Nat × sigaction)
  | [] => []
  | Sys.sigaction n a :: t => (n, a) :: sigactions t
  | _ :: t => sigactions t

/-- The signal dispositions of a process: initial ones (inherited through `fork`)
changed by the `sigaction` calls of the trace, in order. -/
def dispositions (init : Nat → sighandler_t) : List Sys → Nat → sighandler_t
  | [] => init
  | Sys.sigaction n a :: t =>
    dispositions (fun m => if m = n then a.sa_handler else init m) t
  | _ :: t => dispositions init t

/-- Whether the trace reaches `execvp`. -/
def reaches_exec : List Sys → Bool
  | [] => false
  | Sys.execvp _ _ :: _ => true
  | _ :: t => reaches_exec t

/-- What a file descriptor refers to: the file the process had it open on when it was
forked, a file opened by the process, or nothing. -/
inductive FdTarget where
  | inherited (fd : Int)
  | opened (path : CStr) (flags : List OFlag) (mode : Option Nat)
  | closed
  deriving DecidableEq, Repr

/-- The descriptor table of a freshly forked child: 0, 1 and 2 are inherited. -/
def fd_inherited : Int → FdTarget :=
  fun fd => if fd = 0 ∨ fd = 1 ∨ fd = 2 then .inherited fd else .closed

/-- The descriptor table after the calls of a trace: a successful `open` binds the
descriptor it returned, a successful `dup2` makes `newfd` refer to what `oldfd` does. -/
def fd_table (init : Int → FdTarget) : List Sys → Int → FdTarget
  | [] => init
  | Sys.open path flags mode ret :: t =>
    fd_table (if ret = -1 then init
              else fun fd => if fd = ret then .opened path flags mode else init fd) t
  | Sys.dup2 oldfd newfd ret :: t =>
    fd_table (if ret = -1 then init
              else fun fd => if fd = newfd then init oldfd else init fd) t
  | _ :: t => fd_table init t

/-! ## shell_process.c: the list of background jobs -/

/-- Modelled from the spec: `list_node.h`, which declares `struct pid_node`, is not among
the sources.  The node has the two members the code uses: the process id of a job, and
the link to the next node (`none` for NULL, `some a` for the node at address `a`). -/
structure pid_node where
  pid : Int
  next : Option Nat
  deriving DecidableEq, Repr

/-- A pointer to a node: `none` is NULL. -/
abbrev Ptr := Option Nat

/-- The nodes allocated with `malloc` and not yet freed, by address. -/
abbrev Heap := Nat → Option pid_node

/-- `free(p)` for a non-NULL `p`. -/
def Heap.free (h : Heap) (a : Nat) : Heap := fun b => if b = a then none else h b

/-- A store to the node at address `a`. -/
def Heap.set (h : Heap) (a : Nat) (n : pid_node) : Heap := fun b => if b = a then some n else h b

/-- The errno value ECHILD (Linux). -/
def ECHILD : Int := 10

/-- First loop of `exit_shell`: `kill(list->pid, SIGTERM)` for each node in turn.
Returns the `kill` calls made, as (pid, signal), and how the loop ended. -/
def kill_loop (h : Heap) : Nat → Ptr → List (Int × Nat) → List (Int × Nat) × Ctl Unit
  | 0, _, ks => (ks, .spin)
  | _ + 1, none, ks => (ks, .ret ())
  | fuel + 1, some a, ks =>
    match h a with
    | none => (ks, .crash)
    | some node => kill_loop h fuel node.next (ks ++ [(node.pid, SIGTERM)])

/-- Second loop of `exit_shell`: `while ((childPID = waitpid(-1, &wstatus, WNOHANG)) != -1)`.
`waitpid_any k` is what call number `k` returns, with the value of `errno` it leaves.
Returns the value of `errno` after the call that returned -1. -/
def wait_loop (waitpid_any : Nat → Int × Int) : Nat → Nat → Ctl Int
  | 0, _ => .spin
  | fuel + 1, k =>
    if (waitpid_any k).1 ≠ -1 then wait_loop waitpid_any fuel (k + 1)
    else .ret (waitpid_any k).2

/-- What a run of `exit_shell` does: the signals sent, the text printed, and how the
call ends (`ret` would be a return to the caller). -/
structure ExitRun where
  kills : List (Int × Nat)
  out : List Char
  ending : Ctl Unit
  deriving DecidableEq, Repr

/-- `exit_shell(list)`. -/
def exit_shell (fuel : Nat) (h : Heap) (list : Ptr) (waitpid_any : Nat → Int × Int) : ExitRun :=
  match kill_loop h fuel list [] with
  | (ks, .ret ()) =>
    match wait_loop waitpid_any fuel 0 with
    | .ret errno =>
      if errno = ECHILD then { kills := ks, out := [], ending := .exit 0 }
      else { kills := ks, out := "Error during waitpid() in exit function\n".toList,
             ending := .exit 1 }
    | .exit c => { kills := ks, out := [], ending := .exit c }
    | .crash => { kills := ks, out := [], ending := .crash }
    | .spin => { kills := ks, out := [], ending := .spin }
  | (ks, e) => { kills := ks, out := [], ending := e }

/-- The nodes met from pointer `p` on, as (address, pid) pairs, up to pointer `q`. -/
def lseg (h : Heap) : Ptr → List (Nat × Int) → Ptr → Prop
  | p, [], q => p = q
  | p, (a, pid) :: rest, q => p = some a ∧ ∃ nx, h a = some ⟨pid, nx⟩ ∧ lseg h nx rest q

/-- The macros of `sys/wait.h` on a raw status (glibc encoding). -/
def WTERMSIG (status : Int) : Int := status % 128
def WIFEXITED (status : Int) : Bool := WTERMSIG status == 0
def WEXITSTATUS (status : Int) : Int := (status % 65536) / 256
def WIFSIGNALED (status : Int) : Bool := WTERMSIG status != 0 && WTERMSIG status != 127

/-- The job list as `main` holds it: the heap of nodes and the variables `head` and
`tail`. -/
structure Registry where
  heap : Heap
  head : Ptr
  tail : Ptr

/-- `add_node(processID)`: `malloc` returns the address `malloc`; the node stored there
has the pid and a NULL link.  Returns the heap and `new_node`. -/
def add_node (h : Heap) (malloc : Nat) (processID : Int) : Heap × Ptr :=
  (h.set malloc { pid := processID, next := none }, some malloc)

/-- The registration step of `main`: `new_node = add_node(pid_result)` followed by the
linking `if (head == NULL) ... else { tail->next = new_node; tail = new_node; }`. -/
def register (r : Registry) (malloc : Nat) (pid_result : Int) : Ctl Registry :=
  let (h1, new_node) := add_node r.heap malloc pid_result
  match r.head with
  | none => .ret { heap := h1, head := new_node, tail := new_node }
  | some _ =>
    match r.tail with
    | none => .crash
    | some t =>
      match h1 t with
      | none => .crash
      | some n =>
        .ret { heap := h1.set t { n with next := new_node }, head := r.head, tail := new_node }

/-- The line printed by `cleanup_bg` for a job, from the value `childPID` returned by
`waitpid` and the value of `wstatus`. -/
def done_line (childPID : Int) (wstatus : Int) : List Char :=
  if WIFEXITED wstatus then
    "background pid ".toList ++ sprintf_d childPID ++ " is done: exit value ".toList ++
      sprintf_d (WEXITSTATUS wstatus) ++ [NEWLINE]
  else
    "background pid ".toList ++ sprintf_d childPID ++ " is done: terminated by signal ".toList ++
      sprintf_d (WTERMSIG wstatus) ++ [NEWLINE]

/-- The variables of `cleanup_bg` besides `list`, `prev` and `remove_flag`: the list
(through `*head`, `*tail`), the text printed so far, and `wstatus`. -/
structure Sweep where
  reg : Registry
  out : List Char
  wstatus : Int

/-- The loop of `cleanup_bg`.  `waitpid pid` is what `waitpid(pid, &wstatus, WNOHANG)`
returns, paired with the status it stores; the status is stored only when a child was
reaped (a positive return value).  The arguments are the step budget, `list`, `prev`
and the state; `remove_flag` is folded into the control flow. -/
def cleanup_loop (waitpid : Int → Int × Int) : Nat → Ptr → Ptr → Sweep → Ctl Sweep
  | 0, _, _, _ => .spin
  | _ + 1, none, _, st => .ret st
  | fuel + 1, some a, prev, st =>
    match st.reg.heap a with
    | none => .crash
    | some node =>
      let childPID := (waitpid node.pid).1
      let wstatus := if childPID > 0 then (waitpid node.pid).2 else st.wstatus
      if childPID ≠ 0 then
        let out := st.out ++ done_line childPID wstatus
        if some a = st.reg.head ∧ some a = st.reg.tail then
          .ret { reg := { heap := st.reg.heap.free a, head := none, tail := none },
                 out := out, wstatus := wstatus }
        else if some a = st.reg.head ∧ some a ≠ st.reg.tail then
          cleanup_loop waitpid fuel node.next none
            { reg := { heap := st.reg.heap.free a, head := node.next, tail := st.reg.tail },
              out := out, wstatus := wstatus }
        else if some a ≠ st.reg.head ∧ some a = st.reg.tail then
          match prev with
          | none => .crash
          | some p =>
            match st.reg.heap p with
            | none => .crash
            | some pn =>
              cleanup_loop waitpid fuel st.reg.head none
                { reg := { heap := (st.reg.heap.set p { pn with next := none }).free a,
                           head := st.reg.head, tail := prev },
                  out := out, wstatus := wstatus }
        else
          match prev with
          | none => .crash
          | some p =>
            match st.reg.heap p with
            | none => .crash
            | some pn =>
              cleanup_loop waitpid fuel st.reg.head none
                { reg := { heap := (st.reg.heap.set p { pn with next := node.next }).free a,
                           head := st.reg.head, tail := st.reg.tail },
                  out := out, wstatus := wstatus }
      else
        cleanup_loop waitpid fuel node.next (some a) { st with wstatus := wstatus }

/-- `cleanup_bg(list, head, tail)`; `wstatus` starts with an indeterminate value. -/
def cleanup_bg (waitpid : Int → Int × Int) (fuel : Nat) (list : Ptr) (reg : Registry)
    (out : List Char) (wstatus : Int) : Ctl Sweep :=
  cleanup_loop waitpid fuel list none { reg := reg, out := out, wstatus := wstatus }

/-- The registry holds exactly the nodes `nodes`, as (address, pid) pairs in list order:
they are linked from `head` to NULL, `tail` is the last of them (NULL when there is
none), and they are distinct nodes (which the linking implies, `lseg_nodup`). -/
def is_registry (r : Registry) (nodes : List (Nat × Int)) : Prop :=
  lseg r.heap r.head nodes none ∧ r.tail = nodes.getLast?.map Prod.fst ∧
    (nodes.map Prod.fst).Nodup

/-- Specification side: the job's non-blocking `waitpid` call returns 0, the job is
still running. -/
def still_running (waitpid : Int → Int × Int) (n : Nat × Int) : Bool :=
  decide ((waitpid n.2).1 = 0)

/-- Specification side: the text a sweep prints for the nodes `t` and the value of
`wstatus` it ends with, starting from the value `ws`: one line for each node whose
`waitpid` call returns a value other than 0, in list order. -/
def sweep_lines (waitpid : Int → Int × Int) : Int → List (Nat × Int) → List Char × Int
  | ws, [] => ([], ws)
  | ws, n :: t =>
    if (waitpid n.2).1 = 0 then sweep_lines waitpid ws t
    else
      let ws2 := if (waitpid n.2).1 > 0 then (waitpid n.2).2 else ws
      (done_line (waitpid n.2).1 ws2 ++ (sweep_lines waitpid ws2 t).1,
       (sweep_lines waitpid ws2 t).2)

/-! ## The shell process: `fg_only_mode`, the handler, the launch step of `main` -/

/-- The state of the shell process that the claims speak about: the global
`fg_only_mode`, the bytes sent to standard output, and the variables `head`, `tail`
(with the heap of nodes) and `last_status` of `main`. -/
structure Shell where
  fg_only_mode : Int
  out : List Char
  reg : Registry
  last_status : Int

/-- The object a string literal denotes: its characters followed by NUL. -/
def literal (s : CStr) : List Char := s ++ [NUL]

/-- `write(STDOUT_FILENO, buf, count)`: `count` bytes are taken from the object `buf`
and sent to standard output; reading past the object is undefined. -/
def write_stdout (out : List Char) (buf : List Char) (count : Nat) : Ctl (List Char) :=
  if count ≤ buf.length then .ret (out ++ buf.take count) else .crash

/-- The message of `sigtstp_handler` on leaving the mode. -/
def exit_message : CStr := "\nExiting foreground-only mode\n".toList

/-- The message of `sigtstp_handler` on entering the mode. -/
def enter_message : CStr := "\nEntering foreground-only mode (& is now ignored)\n".toList

/-- `sigtstp_handler(signo)`. -/
def sigtstp_handler (s : Shell) : Ctl Shell :=
  if s.fg_only_mode ≠ 0 then
    (write_stdout s.out (literal exit_message) 31).bind fun out =>
      .ret { s with fg_only_mode := 0, out := out }
  else
    (write_stdout s.out (literal enter_message) 51).bind fun out =>
      .ret { s with fg_only_mode := 1, out := out }

/-- The two sides of a `fork`: in the calling process a function that forks prints
some text and returns a value; in the new process it makes the calls of a trace and
does not return. -/
inductive Forked (α : Type) where
  | parent (out : List Char) (ret : α)
  | child (trace : List Sys)

/-- What the system answers during one launch: the value `fork` returns in this process,
the answers to the calls of the child (used on the child side), the address `malloc`
returns in `add_node`, and the return value and stored status of the blocking
`waitpid` of `fg_proc`. -/
structure MainEnv where
  fork_ret : Int
  child : ChildEnv
  malloc : Nat
  wait_result : Int
  wstatus : Int

/-- `bg_proc(command)`. -/
def bg_proc (command : command_info) (env : MainEnv) : Forked Int :=
  if env.fork_ret = -1 then .parent "Error during fork\n".toList (-1)
  else if env.fork_ret = 0 then .child (bg_child command env.child)
  else .parent ("Background pid is ".toList ++ sprintf_d env.fork_ret ++ [NEWLINE]) env.fork_ret

/-- `fg_proc(command)`; the parent blocks SIGTSTP around its `waitpid` call. -/
def fg_proc (command : command_info) (env : MainEnv) : Forked Int :=
  if env.fork_ret = -1 then .parent "Error during fork\n".toList (-1)
  else if env.fork_ret = 0 then .child (fg_child command env.child)
  else if env.wait_result = -1 then .parent "Error during waitpid\n".toList (-1)
  else if WIFSIGNALED env.wstatus then
    .parent ("terminated by signal ".toList ++ sprintf_d (WTERMSIG env.wstatus) ++ [NEWLINE])
      env.wstatus
  else .parent [] env.wstatus

/-- Which launcher a pass through the loop body called. -/
inductive Launch where
  | background
  | foreground
  deriving DecidableEq, Repr

/-- How the launch step of `main` ends: the loop goes on in the shell, or this process
is the forked child, or the step ran into undefined behaviour. -/
inductive Step where
  | continues (s : Shell) (called : Launch)
  | child (trace : List Sys)
  | crash

/-- The part of the loop body of `main` reached for a command that is not built in:
`if (curr_command.background && fg_only_mode == 0) ... else ...`. -/
def main_launch (s : Shell) (curr_command : command_info) (env : MainEnv) : Step :=
  if curr_command.background ≠ 0 ∧ s.fg_only_mode = 0 then
    match bg_proc curr_command env with
    | .child trace => .child trace
    | .parent out pid_result =>
      if pid_result = -1 then .continues { s with out := s.out ++ out } .background
      else
        match register s.reg env.malloc pid_result with
        | .ret reg => .continues { s with out := s.out ++ out, reg := reg } .background
        | _ => .crash
  else
    match fg_proc curr_command env with
    | .child trace => .child trace
    | .parent out status =>
      .continues { s with out := s.out ++ out, last_status := status } .foreground

/-! ### Sample inputs -/

/-- A command with output redirected to the file `out` and no input redirection. -/
def sample_command : command_info :=
  { args := [some "ls".toList, none], stdin_file := none,
    stdout_file := some "out".toList, background := 1 }

/-- System answers in which every call succeeds: the two `open` calls return the
descriptors 3 and 4. -/
def sample_env : ChildEnv :=
  { open_in := 3, dup_in := 0, open_out := 4, dup_out := 1, exec_fails := false }

/-- A heap with two nodes: the job 100 at address 1, linked to the job 200 at address 2. -/
def sample_heap : Heap :=
  fun a => if a = 1 then some ⟨100, some 2⟩ else if a = 2 then some ⟨200, none⟩ else none

/-- Answers of `waitpid(-1, ...)`: two children are reaped, then the call fails with
ECHILD. -/
def sample_waits : Nat → Int × Int :=
  fun k => if k = 0 then (100, 0) else if k = 1 then (200, 0) else (-1, ECHILD)

/-- A registry of three jobs: 100, 200 and 300, at the addresses 1, 2 and 3. -/
def sample_registry : Registry :=
  { heap := fun a =>
      if a = 1 then some ⟨100, some 2⟩ else if a = 2 then some ⟨200, some 3⟩
      else if a = 3 then some ⟨300, none⟩ else none,
    head := some 1, tail := some 3 }

/-- Answers of the non-blocking `waitpid`: job 200 was killed by signal 9, the others
are still running. -/
def sample_waitpid : Int → Int × Int :=
  fun pid => if pid = 200 then (200, 9) else (0, 0)

/-- Answers of the non-blocking `waitpid`: every job is still running. -/
def idle_waitpid : Int → Int × Int := fun _ => (0, 0)

/-- A registry with the single job 100, at address 1. -/
def single_registry : Registry :=
  { heap := fun a => if a = 1 then some ⟨100, none⟩ else none, head := some 1, tail := some 1 }

/-- Answers of the non-blocking `waitpid`: the call fails (returns -1). -/
def failing_waitpid : Int → Int × Int := fun _ => (-1, 0)

/-- A shell in its initial mode with the three sample jobs registered. -/
def sample_shell : Shell :=
  { fg_only_mode := 0, out := [], reg := sample_registry, last_status := 0 }

/-- Answers for a launch in which `fork` returns the pid 400 to the parent and `malloc`
returns the address 4. -/
def sample_main_env : MainEnv :=
  { fork_ret := 400, child := sample_env, malloc := 4, wait_result := 400, wstatus := 0 }

/-! ## Proofs: expand_pid -/

theorem strstr_nil : strstr [] DOLLARS = none := by
  simp [strstr, DOLLARS]

theorem strstr_single (c : Char) : strstr [c] DOLLARS = none := by
  simp [strstr, DOLLARS, List.isPrefixOf]

theorem strstr_cons2 (c c2 : Char) (r : CStr) :
    strstr (c :: c2 :: r) DOLLARS =
      if c = DOLLAR ∧ c2 = DOLLAR then some (c :: c2 :: r) else strstr (c2 :: r) DOLLARS := by
  have hp : List.isPrefixOf DOLLARS (c :: c2 :: r) = true ↔ (c = DOLLAR ∧ c2 = DOLLAR) := by
    simp only [DOLLARS, List.isPrefixOf, Bool.and_true, Bool.and_eq_true, beq_iff_eq]
    constructor <;> rintro ⟨a, b⟩ <;> exact ⟨a.symm, b.symm⟩
  rw [strstr]
  by_cases h : c = DOLLAR ∧ c2 = DOLLAR
  · rw [if_pos h, if_pos (hp.2 h)]
  · rw [if_neg h, if_neg (fun hh => h (hp.1 hh))]

theorem strstr_none_occ : ∀ (s : CStr), strstr s DOLLARS = none → occurrences s = 0
  | [], _ => by simp [occurrences]
  | [c], _ => by simp [occurrences]
  | c :: c2 :: r, h => by
    rw [strstr_cons2] at h
    rw [occurrences]
    split_ifs at h with hc
    rw [if_neg hc]
    exact strstr_none_occ (c2 :: r) h

theorem strstr_some_occ : ∀ (s d : CStr), strstr s DOLLARS = some d →
    occurrences s = occurrences (d.drop 2) + 1 ∧ (d.drop 2).length + 2 ≤ s.length
  | [], d, h => by simp [strstr_nil] at h
  | [c], d, h => by simp [strstr_single] at h
  | c :: c2 :: r, d, h => by
    rw [strstr_cons2] at h
    rw [occurrences]
    split_ifs at h with hc
    · simp at h
      subst h
      simp [hc]
    · rw [if_neg hc]
      have := strstr_some_occ (c2 :: r) d h
      refine ⟨this.1, ?_⟩
      have h2 := this.2
      simp only [List.length_cons] at h2 ⊢
      omega

theorem count_dollars_eq : ∀ (fuel : Nat) (s : CStr) (n : Nat), s.length < fuel →
    count_dollars fuel s n = some (n + occurrences s)
  | 0, _, _, h => by omega
  | fuel + 1, s, n, h => by
    rw [count_dollars]
    cases hs : strstr s DOLLARS with
    | none => simp [strstr_none_occ s hs]
    | some d =>
      obtain ⟨h1, h2⟩ := strstr_some_occ s d hs
      simp only
      split_ifs with hnil
      · rw [h1, hnil]; simp [occurrences]; 
      · rw [count_dollars_eq fuel (d.drop 2) (n + 1) (by omega), h1]
        congr 1; omega

theorem count_digits_toDigits : ∀ (n f1 f2 acc : Nat) (ds : List Char), 0 < n → n < f1 → n < f2 →
    ∃ k, 0 < k ∧ count_digits f1 (n : Int) acc = some (acc + k) ∧
      (Nat.toDigitsCore 10 f2 n ds).length = ds.length + k := by
  intro n
  induction n using Nat.strong_induction_on with
  | _ n ih =>
    intro f1 f2 acc ds hn h1 h2
    obtain ⟨f1, rfl⟩ : ∃ g, f1 = g + 1 := ⟨f1 - 1, by omega⟩
    obtain ⟨f2, rfl⟩ : ∃ g, f2 = g + 1 := ⟨f2 - 1, by omega⟩
    have hpos : (n : Int) > 0 := by exact_mod_cast hn
    have hdiv : Int.tdiv (n : Int) 10 = ((n / 10 : Nat) : Int) := by
      simp [Int.tdiv]
    rw [count_digits, if_pos hpos, hdiv, Nat.toDigitsCore]
    by_cases hz : n / 10 = 0
    · refine ⟨1, by omega, ?_, ?_⟩
      · obtain ⟨g, rfl⟩ : ∃ g, f1 = g + 1 := ⟨f1 - 1, by omega⟩
        rw [hz, count_digits]
        simp
      · simp [hz]
    · obtain ⟨k, hk0, hk1, hk2⟩ := ih (n / 10) (by omega) f1 f2 (acc + 1)
        (Nat.digitChar (n % 10) :: ds) (by omega) (by omega) (by omega)
      refine ⟨k + 1, by omega, ?_, ?_⟩
      · rw [hk1]; congr 1; omega
      · simp only [hz, if_false]
        rw [hk2]; simp; omega

theorem count_digits_pos (p : Int) (hp : 0 < p) :
    count_digits (p.toNat + 1) p 0 = some (sprintf_d p).length ∧ 0 < (sprintf_d p).length := by
  obtain ⟨n, rfl⟩ : ∃ n : Nat, p = (n : Int) := ⟨p.toNat, by omega⟩
  have hn : 0 < n := by exact_mod_cast hp
  obtain ⟨k, hk0, hk1, hk2⟩ := count_digits_toDigits n (n + 1) (n + 1) 0 [] hn (by omega) (by omega)
  have hs : sprintf_d (n : Int) = Nat.toDigits 10 n := by
    simp [sprintf_d]
  rw [hs, Nat.toDigits, hk2]
  simp at hk1 ⊢
  exact ⟨hk1, hk0⟩

theorem copy_loop_eq (rep : CStr) (n : Nat) (h : n = rep.length) :
    ∀ (s : CStr), copy_loop rep n s = substitute rep s
  | [] => by simp [copy_loop, substitute]
  | [c] => by simp [copy_loop, substitute]
  | c :: c2 :: r => by
    rw [copy_loop, substitute]
    rw [copy_loop_eq rep n h r, copy_loop_eq rep n h (c2 :: r), h, List.take_length]

theorem substitute_length (rep : CStr) :
    ∀ (s : CStr), ((substitute rep s).length : Int) =
        (s.length : Int) - 2 * occurrences s + rep.length * occurrences s ∧
      2 * occurrences s ≤ s.length
  | [] => by simp [substitute, occurrences]
  | [c] => by simp [substitute, occurrences]
  | c :: c2 :: r => by
    rw [substitute, occurrences]
    obtain ⟨h1, h1b⟩ := substitute_length rep r
    obtain ⟨h2, h2b⟩ := substitute_length rep (c2 :: r)
    by_cases hc : c = DOLLAR ∧ c2 = DOLLAR
    · simp only [hc, and_self, if_true, List.length_append, List.length_cons]
      push_cast
      constructor
      · rw [h1]; ring
      · omega
    · simp only [hc, if_false, List.length_cons] at h2 h2b ⊢
      push_cast at h2 ⊢
      constructor
      · rw [h2]; ring
      · omega

theorem substitute_no_occ (rep : CStr) :
    ∀ (s : CStr), occurrences s = 0 → substitute rep s = s
  | [], _ => by simp [substitute]
  | [c], _ => by simp [substitute]
  | c :: c2 :: r, h => by
    rw [occurrences] at h
    rw [substitute]
    by_cases hc : c = DOLLAR ∧ c2 = DOLLAR
    · simp [hc] at h
    · simp only [hc, if_false] at h ⊢
      rw [substitute_no_occ rep (c2 :: r) h]

theorem expand_pid_cases (token : CStr) (p : Int) (hp : 0 < p) :
    expand_pid token p =
      if occurrences token = 0 then Ctl.ret token
      else if expanded_size token (occurrences token) (sprintf_d p).length > 2049 then Ctl.exit 1
      else Ctl.ret (substitute (sprintf_d p) token) := by
  unfold expand_pid
  rw [count_dollars_eq (token.length + 1) token 0 (by omega)]
  simp only [Nat.zero_add]
  cases hk : occurrences token with
  | zero => simp
  | succ k =>
    simp only [(count_digits_pos p hp).1, Nat.succ_ne_zero, if_false]
    rw [copy_loop_eq (sprintf_d p) _ rfl]

/-! ## Proofs: tokenize -/

@[simp] theorem Ctl.bind_ret {α β : Type} (a : α) (f : α → Ctl β) : (Ctl.ret a).bind f = f a := rfl
@[simp] theorem Ctl.bind_exit {α β : Type} (c : Nat) (f : α → Ctl β) :
    (Ctl.exit c : Ctl α).bind f = Ctl.exit c := rfl
@[simp] theorem Ctl.bind_crash {α β : Type} (f : α → Ctl β) :
    (Ctl.crash : Ctl α).bind f = Ctl.crash := rfl
@[simp] theorem Ctl.bind_spin {α β : Type} (f : α → Ctl β) :
    (Ctl.spin : Ctl α).bind f = Ctl.spin := rfl

theorem Ctl.bind_assoc {α β γ : Type} (x : Ctl α) (f : α → Ctl β) (g : β → Ctl γ) :
    (x.bind f).bind g = x.bind (fun a => (f a).bind g) := by
  cases x <;> rfl

theorem strtok_r_some (s t rest : CStr) (h : strtok_r s = some (t, rest)) :
    rest.length < s.length ∧ t ≠ [] ∧ SPACE ∉ t := by
  unfold strtok_r at h
  have hle := (List.dropWhile_sublist (fun c => c == SPACE) (l := s)).length_le
  cases hd : s.dropWhile (fun c => c == SPACE) with
  | nil => rw [hd] at h; simp at h
  | cons c u =>
    rw [hd] at h hle
    simp only [Option.some.injEq, Prod.mk.injEq] at h
    obtain ⟨ht, hr⟩ := h
    have hc : c ≠ SPACE := by
      have := List.head_dropWhile_not (fun c => c == SPACE) s
      intro hcs
      have h2 := this (by rw [hd]; simp)
      simp [hd, hcs] at h2
    refine ⟨?_, ?_, ?_⟩
    · rw [← hr]
      have h1 := (List.dropWhile_sublist (fun x => x != SPACE) (l := c :: u)).length_le
      have h2 := List.length_drop 1 (List.dropWhile (fun x => x != SPACE) (c :: u))
      simp only [List.length_cons] at h1 hle
      omega
    · rw [← ht]
      have hb : (c != SPACE) = true := by simp [hc]
      simp [List.takeWhile_cons, hb]
    · rw [← ht]
      intro hm
      have := List.mem_takeWhile_imp hm
      simp at this

theorem tokens_of_fuel : ∀ (f1 f2 : Nat) (s : CStr), s.length < f1 → s.length < f2 →
    tokens_of f1 s = tokens_of f2 s
  | 0, _, _, h, _ => by omega
  | _, 0, _, _, h => by omega
  | f1 + 1, f2 + 1, s, h1, h2 => by
    rw [tokens_of, tokens_of]
    cases hs : strtok_r s with
    | none => rfl
    | some tr =>
      obtain ⟨t, rest⟩ := tr
      have := (strtok_r_some s t rest hs).1
      simp only
      rw [tokens_of_fuel f1 f2 rest (by omega) (by omega)]

theorem tokens_none (s : CStr) (h : strtok_r s = none) : tokens s = [] := by
  simp [tokens, tokens_of, h]

theorem tokens_some (s t rest : CStr) (h : strtok_r s = some (t, rest)) :
    tokens s = t :: tokens rest := by
  have := (strtok_r_some s t rest h).1
  unfold tokens
  rw [tokens_of, h]
  simp only
  rw [tokens_of_fuel s.length (rest.length + 1) rest (by omega) (by omega)]

theorem store_append (cells : List (Option CStr)) (w : List Nat) (v : Option CStr) :
    ArgsMem.store { cells := cells, writes := w } cells.length v =
      { cells := cells ++ [v], writes := w ++ [cells.length] } := by
  simp [ArgsMem.store]

theorem store_middle (pre post : List (Option CStr)) (x v : Option CStr) (w : List Nat) :
    ArgsMem.store { cells := pre ++ x :: post, writes := w } pre.length v =
      { cells := pre ++ v :: post, writes := w ++ [pre.length] } := by
  simp [ArgsMem.store]

theorem load_middle (pre post : List (Option CStr)) (x : Option CStr) (w : List Nat) :
    ArgsMem.load { cells := pre ++ x :: post, writes := w } pre.length = Ctl.ret x := by
  have : (pre ++ x :: post).get? pre.length = some x := by
    rw [List.get?_eq_getElem?, List.getElem?_append_right (le_refl _)]
    simp
  simp only [ArgsMem.load, this]
theorem token_loop_eq (p : Int) : ∀ (fuel : Nat) (saveptr : CStr) (pre : List (Option CStr))
    (x : CStr) (w : List Nat) (sin sout : Option CStr) (bg : Int),
    saveptr.length < fuel →
    token_loop p fuel saveptr (pre.length + 1)
        { mem := { cells := pre ++ [some x], writes := w },
          stdin_file := sin, stdout_file := sout, background := bg } =
      (expand_all p (tokens saveptr)).bind fun es =>
        Ctl.ret (pre.length + 1 + es.length,
          { mem := { cells := pre ++ [some x] ++ es.map some,
                     writes := w ++ List.range' (pre.length + 1) es.length },
            stdin_file := redir_scan LT (some x) es sin,
            stdout_file := redir_scan GT (some x) es sout,
            background := bg })
  | 0, _, _, _, _, _, _, _, h => by omega
  | fuel + 1, saveptr, pre, x, w, sin, sout, bg, h => by
    rw [token_loop]
    cases hs : strtok_r saveptr with
    | none =>
      rw [tokens_none saveptr hs]
      simp [expand_all, redir_scan]
    | some tr =>
      obtain ⟨t, rest⟩ := tr
      have hlen := (strtok_r_some saveptr t rest hs).1
      rw [tokens_some saveptr t rest hs, expand_all]
      simp only
      cases he : expand_pid t p with
      | exit c => simp
      | crash => simp
      | spin => simp
      | ret e =>
        have hst : ArgsMem.store { cells := pre ++ [some x], writes := w } (pre.length + 1) (some e)
            = { cells := (pre ++ [some x]) ++ [some e], writes := w ++ [pre.length + 1] } := by
          have := store_append (pre ++ [some x]) w (some e)
          simpa using this
        have hld : ArgsMem.load ⟨(pre ++ [some x]) ++ [some e], w ++ [pre.length + 1]⟩
            (pre.length + 1 - 1) = Ctl.ret (some x) := by
          have := load_middle pre [some e] (some x) (w ++ [pre.length + 1])
          simpa using this
        have ih := fun sin2 sout2 => token_loop_eq p fuel rest (pre ++ [some x]) e
          (w ++ [pre.length + 1]) sin2 sout2 bg (by omega)
        simp only [List.length_append, List.length_singleton] at ih
        simp only [Ctl.bind_ret, hst, hld, strcmp_eq]
        have hne : LT ≠ GT := by decide
        have hr : ∀ n, w ++ [pre.length + 1] ++ List.range' (pre.length + 1 + 1) n =
            w ++ List.range' (pre.length + 1) (n + 1) := by
          intro n; simp [List.range'_succ]
        have hn : ∀ n, pre.length + 1 + 1 + n = pre.length + 1 + (n + 1) := by
          intro n; omega
        by_cases h1 : x = LT
        · subst h1
          simp only [decide_True, if_true]
          rw [ih, Ctl.bind_assoc]
          congr 1
          funext es
          simp only [Ctl.bind_ret, redir_scan, List.map_cons, List.length_cons, hr, hn, if_true,
            List.append_assoc, List.singleton_append, hne, hne.symm, if_false, Option.some.injEq]
          simp
        · simp only [h1, decide_False, Bool.false_eq_true, if_false, Ctl.bind_ret]
          by_cases h2 : x = GT
          · subst h2
            simp only [decide_True, if_true]
            rw [ih, Ctl.bind_assoc]
            congr 1
            funext es
            simp only [Ctl.bind_ret, redir_scan, List.map_cons, List.length_cons, hr, hn, if_true,
              List.append_assoc, List.singleton_append, h1, if_false, Option.some.injEq]
            simp
          · simp only [h2, decide_False, Bool.false_eq_true, if_false]
            rw [ih, Ctl.bind_assoc]
            congr 1
            funext es
            simp only [Ctl.bind_ret, redir_scan, List.map_cons, List.length_cons, hr, hn, if_true,
              List.append_assoc, List.singleton_append, h1, h2, if_false, Option.some.injEq]
            simp
theorem null_loop_eq : ∀ (mid pre post : List (Option CStr)) (w : List Nat) (fuel : Nat),
    mid.length < fuel →
    null_loop fuel pre.length (pre.length + mid.length)
        { cells := pre ++ (mid ++ post), writes := w } =
      Ctl.ret { cells := pre ++ (List.replicate mid.length none ++ post),
                writes := w ++ List.range' pre.length mid.length }
  | _, _, _, _, 0, h => by omega
  | [], pre, post, w, fuel + 1, _ => by
    rw [null_loop]
    simp
  | x :: mid, pre, post, w, fuel + 1, h => by
    rw [null_loop]
    have hlt : pre.length < pre.length + (x :: mid).length := by simp
    rw [if_pos hlt]
    have hst := store_middle pre (mid ++ post) x none w
    simp only [List.cons_append] at hst ⊢
    rw [hst]
    have ih := null_loop_eq mid (pre ++ [none]) post (w ++ [pre.length]) fuel
      (by simp only [List.length_cons] at h; omega)
    simp only [List.length_append, List.length_singleton, List.append_assoc,
      List.singleton_append] at ih
    have e1 : pre.length + (x :: mid).length = pre.length + 1 + mid.length := by
      simp only [List.length_cons]; omega
    rw [e1, ih]
    simp [List.replicate_succ, List.range'_succ]

theorem strip_loop_done (fuel j i : Nat) (m : ArgsMem) (h : i ≤ j) :
    strip_loop (fuel + 1) j i m = Ctl.ret m := by
  rw [strip_loop, if_neg (by omega)]

theorem strip_loop_eq : ∀ (suf : List CStr) (pre : List (Option CStr)) (w : List Nat)
    (fuel : Nat), suf.length < fuel →
    strip_loop fuel pre.length (pre.length + suf.length)
        { cells := pre ++ (suf.map some ++ [none]), writes := w } =
      Ctl.ret { cells := pre ++ strip_spec suf, writes := w ++ strip_writes pre.length suf }
  | _, _, _, 0, h => by omega
  | [], pre, w, fuel + 1, _ => by
    rw [strip_loop_done _ _ _ _ (by simp)]
    simp [strip_spec, strip_writes]
  | t :: ts, pre, w, fuel + 1, h => by
    obtain ⟨fuel, rfl⟩ : ∃ g, fuel = g + 1 := ⟨fuel - 1, by
      simp only [List.length_cons] at h; omega⟩
    rw [strip_loop]
    have hlt : pre.length < pre.length + (t :: ts).length := by simp
    rw [if_pos hlt]
    have hld := load_middle pre (ts.map some ++ [none]) (some t) w
    simp only [List.map_cons, List.cons_append]
    rw [hld]
    simp only [Ctl.bind_ret, strcmp_eq]
    have ih := strip_loop_eq ts (pre ++ [some t]) w (fuel + 1)
      (by simp only [List.length_cons] at h; omega)
    simp only [List.length_append, List.length_singleton, List.append_assoc,
      List.singleton_append] at ih
    have e1 : pre.length + (t :: ts).length = pre.length + 1 + ts.length := by
      simp only [List.length_cons]; omega
    by_cases ha : t = AMP
    · subst ha
      simp only [decide_True, if_true]
      cases ts with
      | nil =>
        have hl2 := load_middle (pre ++ [some AMP]) [] none w
        simp only [List.length_append, List.length_singleton, List.append_assoc,
          List.singleton_append] at hl2
        simp only [List.map_nil, List.nil_append]
        rw [hl2]
        simp only [Ctl.bind_ret, if_true]
        have hst := store_middle pre [none] (some AMP) none w
        rw [hst, strip_loop_done _ _ _ _ (by simp)]
        simp [strip_spec, strip_writes]
      | cons t2 ts2 =>
        have hl2 := load_middle (pre ++ [some AMP]) (ts2.map some ++ [none]) (some t2) w
        simp only [List.length_append, List.length_singleton, List.append_assoc,
          List.singleton_append] at hl2
        simp only [List.map_cons, List.cons_append]
        rw [hl2]
        simp only [Ctl.bind_ret, reduceCtorEq, if_false]
        rw [e1]
        simp only [List.map_cons, List.cons_append] at ih
        rw [ih]
        simp [strip_spec, strip_writes]
    · simp only [ha, decide_False, Bool.false_eq_true, if_false]
      by_cases hr : t = LT ∨ t = GT
      · have hred : ((if decide (t = LT) = true then Ctl.ret true
            else Ctl.ret (decide (t = GT))) : Ctl Bool) = Ctl.ret true := by
          rcases hr with h1 | h1 <;> simp [h1]
        rw [hred]
        simp only [Ctl.bind_ret, if_true]
        have hn := null_loop_eq (some t :: ts.map some) pre [none] w
          (pre.length + (t :: ts).length - pre.length + 1) (by simp)
        simp only [List.length_cons, List.length_map, List.cons_append] at hn
        simp only [List.length_cons]
        rw [hn]
        simp only [Ctl.bind_ret]
        rw [strip_loop_done _ _ _ _ (by omega)]
        simp [strip_spec, strip_writes, ha, hr]
      · have hred : ((if decide (t = LT) = true then Ctl.ret true
            else Ctl.ret (decide (t = GT))) : Ctl Bool) = Ctl.ret false := by
          push_neg at hr
          simp [hr.1, hr.2]
        rw [hred]
        simp only [Ctl.bind_ret, Bool.false_eq_true, if_false]
        rw [e1, ih]
        simp [strip_spec, strip_writes, ha, hr]
theorem load_last (l : List CStr) (hl : l ≠ []) (w : List Nat) :
    ArgsMem.load { cells := l.map some ++ [none], writes := w } (l.length - 1) =
      Ctl.ret l.getLast? := by
  rcases List.eq_nil_or_concat l with h | ⟨init, z, h⟩
  · exact absurd h hl
  · subst h
    have := load_middle (init.map some) [none] (some z) w
    simp only [List.length_map] at this
    simp [this]

theorem tokenize_run_eq (s : CStr) (p : Int) :
    tokenize_run s p =
      match tokens s with
      | [] => Ctl.crash
      | t :: ts => (expand_all p (t :: ts)).bind fun es => Ctl.ret (finish es) := by
  unfold tokenize_run
  cases hs : strtok_r s with
  | none => rw [tokens_none s hs]
  | some tr =>
    obtain ⟨t, rest⟩ := tr
    have hlen := (strtok_r_some s t rest hs).1
    rw [tokens_some s t rest hs]
    simp only [expand_all]
    cases he : expand_pid t p with
    | exit c => simp
    | crash => simp
    | spin => simp
    | ret e =>
      have hst : ArgsMem.store { cells := [], writes := [] } 0 (some e) =
          { cells := [] ++ [some e], writes := [0] } := by
        simp [ArgsMem.store]
      have htl := token_loop_eq p (s.length + 1) rest [] e [0] none none 0 (by omega)
      simp only [List.length_nil, Nat.zero_add] at htl
      simp only [Ctl.bind_ret, hst, htl, Ctl.bind_assoc]
      congr 1
      funext es
      have hst2 : ArgsMem.store ⟨[] ++ [some e] ++ es.map some, [0] ++ List.range' 1 es.length⟩
          (1 + es.length) none =
          ⟨(e :: es).map some ++ [none], List.range' 0 ((e :: es).length + 1)⟩ := by
        have := store_append ([] ++ [some e] ++ es.map some) ([0] ++ List.range' 1 es.length) none
        simp only [List.nil_append, List.length_append, List.length_singleton,
          List.length_map, List.singleton_append, List.length_cons] at this
        simp only [List.nil_append, List.singleton_append, List.map_cons, List.length_cons]
        rw [Nat.add_comm 1 es.length, this]
        have hr : 0 :: (List.range' 1 es.length ++ [es.length + 1]) =
            List.range' 0 (es.length + 1 + 1) := by
          rw [List.range'_succ 0 (es.length + 1), List.range'_concat]
          simp [Nat.add_comm]
        simp only [List.cons_append]
        rw [hr]
      have hld := load_last (e :: es) (by simp) (List.range' 0 ((e :: es).length + 1))
      have hsl := strip_loop_eq (e :: es) [] (List.range' 0 ((e :: es).length + 1))
        ((e :: es).length + 1) (by omega)
      simp only [List.length_nil, Nat.zero_add, List.nil_append] at hsl
      have e1 : 1 + es.length = (e :: es).length := by simp [Nat.add_comm]
      simp only [Ctl.bind_ret, hst2]
      rw [e1, hld]
      simp only [Ctl.bind_ret, strcmp_eq]
      cases hg : (e :: es).getLast? with
      | none => simp at hg
      | some z =>
        simp only [Ctl.bind_ret, hsl]
        by_cases hz : z = AMP
        · subst hz
          simp [finish, hg, redir_scan]
        · simp [finish, hg, hz, redir_scan]
theorem count_digits_nonpos (p : Int) (hp : p ≤ 0) (fuel n : Nat) :
    count_digits (fuel + 1) p n = some n := by
  rw [count_digits, if_neg (by omega)]

theorem expand_pid_total (t : CStr) (p : Int) :
    expand_pid t p = Ctl.exit 1 ∨ ∃ e, expand_pid t p = Ctl.ret e := by
  by_cases hp : 0 < p
  · rw [expand_pid_cases t p hp]
    split_ifs
    · exact Or.inr ⟨_, rfl⟩
    · exact Or.inl rfl
    · exact Or.inr ⟨_, rfl⟩
  · unfold expand_pid
    rw [count_dollars_eq (t.length + 1) t 0 (by omega)]
    simp only [Nat.zero_add]
    cases hk : occurrences t with
    | zero => exact Or.inr ⟨_, rfl⟩
    | succ k =>
      simp only [count_digits_nonpos p (by omega)]
      split_ifs
      · exact Or.inl rfl
      · exact Or.inr ⟨_, rfl⟩

theorem expand_pid_no_dollars (t : CStr) (p : Int) (h : occurrences t = 0) :
    expand_pid t p = Ctl.ret t := by
  unfold expand_pid
  rw [count_dollars_eq (t.length + 1) t 0 (by omega), h]

theorem expand_all_total (p : Int) : ∀ (ts : List CStr),
    expand_all p ts = Ctl.exit 1 ∨
      ∃ es, expand_all p ts = Ctl.ret es ∧
        List.Forall₂ (fun t e => expand_pid t p = Ctl.ret e) ts es
  | [] => Or.inr ⟨[], rfl, List.Forall₂.nil⟩
  | t :: ts => by
    rw [expand_all]
    rcases expand_pid_total t p with h | ⟨e, h⟩
    · left; rw [h]; rfl
    · rcases expand_all_total p ts with h2 | ⟨es, h2, h3⟩
      · left; rw [h, h2]; rfl
      · right
        exact ⟨e :: es, by rw [h, h2]; rfl, List.Forall₂.cons h h3⟩

theorem expand_all_no_dollars (p : Int) : ∀ (ts : List CStr),
    (∀ t ∈ ts, occurrences t = 0) → expand_all p ts = Ctl.ret ts
  | [], _ => rfl
  | t :: ts, h => by
    rw [expand_all, expand_pid_no_dollars t p (h t (by simp)),
      expand_all_no_dollars p ts (fun u hu => h u (by simp [hu]))]
    rfl

/-- The struct members read off the final state of `tokenize`. -/
theorem tokenize_of_expand (s : CStr) (p : Int) (es : List CStr) (hne : tokens s ≠ [])
    (h : expand_all p (tokens s) = Ctl.ret es) :
    tokenize s p = Ctl.ret { args := strip_spec es,
                             stdin_file := redir_scan LT none es none,
                             stdout_file := redir_scan GT none es none,
                             background := if es.getLast? = some AMP then 1 else 0 } ∧
    tokenize_writes s p =
      Ctl.ret (List.range' 0 (es.length + 1) ++ strip_writes 0 es) := by
  unfold tokenize tokenize_writes
  rw [tokenize_run_eq]
  cases ht : tokens s with
  | nil => exact absurd ht hne
  | cons t ts =>
    rw [ht] at h
    simp only [h, Ctl.bind_ret, finish, and_self]

theorem tokenize_of_exit (s : CStr) (p : Int) (c : Nat) (hne : tokens s ≠ [])
    (h : expand_all p (tokens s) = Ctl.exit c) :
    tokenize s p = Ctl.exit c ∧ tokenize_writes s p = Ctl.exit c := by
  unfold tokenize tokenize_writes
  rw [tokenize_run_eq]
  cases ht : tokens s with
  | nil => exact absurd ht hne
  | cons t ts =>
    rw [ht] at h
    simp only [h, Ctl.bind_exit, and_self]

theorem arg_str_accepts (line : List Char) (s : CStr)
    (h : arg_str (some line) = Ctl.ret (some s)) :
    s = cstr (strip_newline line line.length) ∧ line.length ≤ 2049 ∧
      comment_or_space s = false := by
  unfold arg_str at h
  simp only at h
  split_ifs at h with h1 h2 h3 <;>
    simp only [Ctl.ret.injEq, Option.some.injEq, reduceCtorEq] at h
  subst h
  exact ⟨rfl, by omega, by simpa using h3⟩

theorem tokens_ne_nil_of_accept (s : CStr) (h : comment_or_space s = false) :
    tokens s ≠ [] := by
  unfold comment_or_space at h
  split_ifs at h
  cases hd : s.dropWhile (fun c => c == SPACE) with
  | nil => rw [hd] at h; simp at h
  | cons c u =>
    have hs : strtok_r s = some ((c :: u).takeWhile (fun x => x != SPACE),
        ((c :: u).dropWhile (fun x => x != SPACE)).drop 1) := by
      unfold strtok_r
      rw [hd]
    rw [tokens_some s _ _ hs]
    simp
theorem argv_cons_some (t : CStr) (l : List (Option CStr)) : argv (some t :: l) = t :: argv l := by
  simp [argv, List.takeWhile_cons]

theorem argv_cons_none (l : List (Option CStr)) : argv (none :: l) = [] := by
  simp [argv, List.takeWhile_cons]

theorem is_redir_amp : is_redir AMP = false := by decide

theorem argv_strip_spec : ∀ (es : List CStr), argv (strip_spec es) = kept_args es
  | [] => by simp [strip_spec, argv_cons_none, kept_args]
  | t :: ts => by
    have ih := argv_strip_spec ts
    rw [strip_spec]
    by_cases ha : t = AMP
    · subst ha
      cases ts with
      | nil => simp [argv_cons_none, kept_args, is_redir_amp]
      | cons t2 ts2 =>
        simp only [if_true, reduceCtorEq, if_false, argv_cons_some, ih]
        simp only [kept_args, List.any_cons, is_redir_amp, Bool.false_or, List.takeWhile_cons,
          Bool.not_false, if_true, List.getLast?_cons_cons, List.dropLast_cons₂]
        split_ifs <;> rfl
    · rw [if_neg ha]
      by_cases hr : t = LT ∨ t = GT
      · have hb : is_redir t = true := by simp [is_redir, hr]
        rw [if_pos hr]
        simp [List.replicate_succ, argv_cons_none, kept_args, hb, List.takeWhile_cons]
      · have hb : is_redir t = false := by simp [is_redir, hr]
        rw [if_neg hr, argv_cons_some, ih]
        cases ts with
        | nil => simp [kept_args, hb, ha, List.takeWhile_cons]
        | cons t2 ts2 =>
          simp only [kept_args, List.any_cons, hb, Bool.false_or, List.takeWhile_cons,
            Bool.not_false, if_true, List.getLast?_cons_cons, List.dropLast_cons₂]
          split_ifs <;> rfl

theorem kept_args_no_redir (es : List CStr) : ∀ t ∈ kept_args es, is_redir t = false := by
  intro t ht
  unfold kept_args at ht
  split_ifs at ht with h1 h2
  · have := List.mem_takeWhile_imp ht
    simpa using this
  · have hm := List.mem_of_mem_dropLast ht
    simp only [List.any_eq_true, not_exists, not_and, Bool.not_eq_true] at h1
    exact h1 t hm
  · simp only [List.any_eq_true, not_exists, not_and, Bool.not_eq_true] at h1
    exact h1 t ht

theorem kept_args_prefix (es : List CStr) :
    kept_args es <+: es.takeWhile (fun t => !is_redir t) := by
  unfold kept_args
  split_ifs with h1 h2
  · exact List.prefix_refl _
  · have : es.takeWhile (fun t => !is_redir t) = es := by
      rw [List.takeWhile_eq_self_iff]
      intro t ht
      simp only [List.any_eq_true, not_exists, not_and, Bool.not_eq_true] at h1
      simp [h1 t ht]
    rw [this]
    exact List.dropLast_prefix es
  · have : es.takeWhile (fun t => !is_redir t) = es := by
      rw [List.takeWhile_eq_self_iff]
      intro t ht
      simp only [List.any_eq_true, not_exists, not_and, Bool.not_eq_true] at h1
      simp [h1 t ht]
    rw [this]
theorem digitChar_isDigit (k : Nat) (h : k < 10) : (Nat.digitChar k).isDigit = true := by
  interval_cases k <;> decide

theorem toDigitsCore_isDigit : ∀ (fuel n : Nat) (ds : List Char),
    (∀ c ∈ ds, c.isDigit = true) → ∀ c ∈ Nat.toDigitsCore 10 fuel n ds, c.isDigit = true
  | 0, _, ds, h => by simpa [Nat.toDigitsCore] using h
  | fuel + 1, n, ds, h => by
    have hd : ∀ c ∈ Nat.digitChar (n % 10) :: ds, c.isDigit = true := by
      intro c hc
      rcases List.mem_cons.1 hc with rfl | hc
      · exact digitChar_isDigit _ (Nat.mod_lt _ (by decide))
      · exact h c hc
    rw [Nat.toDigitsCore]
    split_ifs
    · exact hd
    · exact toDigitsCore_isDigit fuel (n / 10) _ hd

theorem sprintf_d_isDigit (p : Int) (hp : 0 < p) : ∀ c ∈ sprintf_d p, c.isDigit = true := by
  have : sprintf_d p = Nat.toDigits 10 p.natAbs := by
    unfold sprintf_d
    rw [if_neg (by omega)]
  rw [this, Nat.toDigits]
  exact toDigitsCore_isDigit _ _ [] (by simp)

theorem substitute_mem (rep : CStr) : ∀ (s : CStr), 0 < occurrences s →
    ∀ c ∈ rep, c ∈ substitute rep s
  | [], h => by simp [occurrences] at h
  | [c], h => by simp [occurrences] at h
  | c :: c2 :: r, h => by
    intro x hx
    rw [occurrences] at h
    rw [substitute]
    by_cases hc : c = DOLLAR ∧ c2 = DOLLAR
    · simp only [hc, and_self, if_true]
      exact List.mem_append_left _ hx
    · simp only [hc, if_false] at h ⊢
      exact List.mem_cons_of_mem _ (substitute_mem rep (c2 :: r) h x hx)

/-- With a positive process id an expanded token is one of "<", ">", "&" exactly when
the token itself is. -/
theorem expand_pid_symbol (t e : CStr) (p : Int) (hp : 0 < p) (h : expand_pid t p = Ctl.ret e)
    (sym : CStr) (hs : sym = LT ∨ sym = GT ∨ sym = AMP) : e = sym ↔ t = sym := by
  rw [expand_pid_cases t p hp] at h
  have hsym0 : occurrences sym = 0 := by
    rcases hs with rfl | rfl | rfl <;> decide
  have hsymd : ∀ c ∈ sym, c.isDigit = false := by
    rcases hs with rfl | rfl | rfl <;> decide
  split_ifs at h with h1 h2
  · simp only [Ctl.ret.injEq] at h
    rw [h]
  · simp only [Ctl.ret.injEq] at h
    have hlen := (count_digits_pos p hp).2
    obtain ⟨c, hc⟩ := List.exists_mem_of_length_pos hlen
    have hce : c ∈ e := by
      rw [← h]
      exact substitute_mem _ t (by omega) c hc
    constructor
    · intro hes
      rw [hes] at hce
      have := hsymd c hce
      rw [sprintf_d_isDigit p hp c hc] at this
      cases this
    · intro hts
      rw [hts] at h1
      exact absurd hsym0 h1

theorem is_redir_expand (t e : CStr) (p : Int) (hp : 0 < p) (h : expand_pid t p = Ctl.ret e) :
    is_redir e = is_redir t := by
  have h1 := expand_pid_symbol t e p hp h LT (Or.inl rfl)
  have h2 := expand_pid_symbol t e p hp h GT (Or.inr (Or.inl rfl))
  simp only [is_redir, h1, h2]

theorem forall2_takeWhile_length (p : Int) (hp : 0 < p) : ∀ (ts es : List CStr),
    List.Forall₂ (fun t e => expand_pid t p = Ctl.ret e) ts es →
    (es.takeWhile (fun t => !is_redir t)).length = (ts.takeWhile (fun t => !is_redir t)).length
  | [], [], _ => rfl
  | t :: ts, e :: es, h => by
    rcases List.forall₂_cons.1 h with ⟨h1, h2⟩
    rw [List.takeWhile_cons, List.takeWhile_cons, is_redir_expand t e p hp h1]
    cases is_redir t
    · simp [forall2_takeWhile_length p hp ts es h2]
    · simp
theorem tokenize_cases (line : List Char) (s : CStr) (p : Int)
    (hacc : arg_str (some line) = Ctl.ret (some s)) :
    (tokenize s p = Ctl.exit 1 ∧ tokenize_writes s p = Ctl.exit 1) ∨
    ∃ es, List.Forall₂ (fun t e => expand_pid t p = Ctl.ret e) (tokens s) es ∧ es ≠ [] ∧
      tokenize s p = Ctl.ret { args := strip_spec es,
                               stdin_file := redir_scan LT none es none,
                               stdout_file := redir_scan GT none es none,
                               background := if es.getLast? = some AMP then 1 else 0 } ∧
      tokenize_writes s p = Ctl.ret (List.range' 0 (es.length + 1) ++ strip_writes 0 es) := by
  have hne := tokens_ne_nil_of_accept s (arg_str_accepts line s hacc).2.2
  rcases expand_all_total p (tokens s) with h | ⟨es, h, hf⟩
  · exact Or.inl (tokenize_of_exit s p 1 hne h)
  · refine Or.inr ⟨es, hf, ?_, tokenize_of_expand s p es hne h⟩
    intro he
    rw [he] at hf
    exact hne (List.forall₂_nil_right_iff.1 hf)

theorem prefix_dropLast_of_length_lt {α : Type} (l es : List α) (h : l <+: es)
    (hl : l.length < es.length) : l <+: es.dropLast := by
  obtain ⟨r, hr⟩ := h
  rcases List.eq_nil_or_concat r with h0 | ⟨r2, z, h2⟩
  · subst h0
    simp at hr
    subst hr
    omega
  · subst h2
    rw [← hr, List.concat_eq_append, ← List.append_assoc, List.dropLast_concat]
    exact List.prefix_append _ _

theorem kept_args_background (es : List CStr) (h : es.getLast? = some AMP) :
    kept_args es <+: es.dropLast := by
  unfold kept_args
  split_ifs with h1
  · apply prefix_dropLast_of_length_lt _ _ (List.takeWhile_prefix _)
    simp only [List.any_eq_true] at h1
    obtain ⟨t, ht, hr⟩ := h1
    by_contra hlen
    have hle := (List.takeWhile_prefix (fun t => !is_redir t) (l := es)).length_le
    have heq : es.takeWhile (fun t => !is_redir t) = es :=
      List.IsPrefix.eq_of_length (List.takeWhile_prefix _) (by omega)
    rw [List.takeWhile_eq_self_iff] at heq
    have := heq t ht
    simp [hr] at this
  · exact List.prefix_refl _
/-! ## Proofs: child processes -/

theorem sigactions_fg_tail (command : command_info) (env : ChildEnv) :
    sigactions (fg_child_stdin command env
      (fg_child_stdout command env
        (Sys.execvp (command.args.head?.join) (argv command.args) ::
          if env.exec_fails then [Sys.perror (command.args.head?.join), Sys.exit 1] else []))) = [] := by
  unfold fg_child_stdin fg_child_stdout
  cases command.stdin_file <;> cases command.stdout_file <;> simp only <;>
    split_ifs <;> simp [sigactions]

theorem sigactions_fg (command : command_info) (env : ChildEnv) :
    sigactions (fg_child command env) =
      [(SIGINT, { sa_handler := .SIG_DFL, sa_mask := fun _ => true, sa_flags := 0 }),
       (SIGTSTP, { sa_handler := .SIG_IGN, sa_mask := fun _ => true, sa_flags := 0 })] := by
  unfold fg_child
  simp only [sigactions, sigactions_fg_tail]
  rfl

theorem sigactions_bg (command : command_info) (env : ChildEnv) :
    sigactions (bg_child command env) =
      [(SIGTSTP, { sa_handler := .SIG_IGN, sa_mask := fun _ => true, sa_flags := 0 })] := by
  unfold bg_child
  simp only [sigactions]
  split_ifs <;> simp [sigactions] <;> rfl

theorem dispositions_eq (init : Nat → sighandler_t) : ∀ (t : List Sys),
    dispositions init t =
      (sigactions t).foldl (fun d x => fun m => if m = x.1 then x.2.sa_handler else d m) init
  | [] => rfl
  | Sys.sigaction n a :: t => by
    rw [dispositions, sigactions, List.foldl_cons, dispositions_eq _ t]
  | Sys.open _ _ _ _ :: t => by simp [dispositions, sigactions, dispositions_eq _ t]
  | Sys.dup2 _ _ _ :: t => by simp [dispositions, sigactions, dispositions_eq _ t]
  | Sys.execvp _ _ :: t => by simp [dispositions, sigactions, dispositions_eq _ t]
  | Sys.printf _ :: t => by simp [dispositions, sigactions, dispositions_eq _ t]
  | Sys.perror _ :: t => by simp [dispositions, sigactions, dispositions_eq _ t]
  | Sys.exit _ :: t => by simp [dispositions, sigactions, dispositions_eq _ t]
/-! ## Proofs: exit_shell -/

theorem kill_loop_lseg (h : Heap) : ∀ (nodes : List (Nat × Int)) (p : Ptr) (fuel : Nat)
    (ks : List (Int × Nat)), lseg h p nodes none → nodes.length < fuel →
    kill_loop h fuel p ks = (ks ++ nodes.map (fun n => (n.2, SIGTERM)), Ctl.ret ())
  | _, _, 0, _, _, hf => by omega
  | [], p, fuel + 1, ks, hl, _ => by
    simp only [lseg] at hl
    subst hl
    simp [kill_loop]
  | (a, pid) :: rest, p, fuel + 1, ks, hl, hf => by
    obtain ⟨hp, nx, hn, hr⟩ := hl
    subst hp
    rw [kill_loop, hn]
    simp only
    rw [kill_loop_lseg h rest nx fuel _ hr (by simp only [List.length_cons] at hf; omega)]
    simp

theorem wait_loop_first_failure (w : Nat → Int × Int) (k : Nat) (hk : (w k).1 = -1) :
    ∀ (d j fuel : Nat), j + d = k → (∀ i, j ≤ i → i < k → (w i).1 ≠ -1) → d < fuel →
    wait_loop w fuel j = Ctl.ret (w k).2
  | _, _, 0, _, _, hf => by omega
  | 0, j, fuel + 1, hj, _, _ => by
    have : j = k := by omega
    subst this
    rw [wait_loop, if_neg (by simp [hk])]
  | d + 1, j, fuel + 1, hj, hlt, hf => by
    rw [wait_loop, if_pos (hlt j (le_refl _) (by omega))]
    exact wait_loop_first_failure w k hk d (j + 1) fuel (by omega)
      (fun i hi hik => hlt i (by omega) hik) (by omega)

theorem kill_loop_no_ret_spin (h : Heap) : ∀ (fuel : Nat) (p : Ptr) (ks : List (Int × Nat)),
    (kill_loop h fuel p ks).2 = Ctl.ret () ∨ (kill_loop h fuel p ks).2 = Ctl.crash ∨
      (kill_loop h fuel p ks).2 = Ctl.spin
  | 0, _, _ => by simp [kill_loop]
  | _ + 1, none, _ => by simp [kill_loop]
  | fuel + 1, some a, ks => by
    rw [kill_loop]
    cases h a with
    | none => simp
    | some node => exact kill_loop_no_ret_spin h fuel node.next _

theorem exit_shell_never_returns (fuel : Nat) (h : Heap) (list : Ptr) (w : Nat → Int × Int) :
    (exit_shell fuel h list w).ending ≠ Ctl.ret () := by
  unfold exit_shell
  rcases hk : kill_loop h fuel list [] with ⟨ks, e⟩
  have h3 := kill_loop_no_ret_spin h fuel list []
  rw [hk] at h3
  simp only at h3
  rcases h3 with h3 | h3 | h3 <;> subst h3
  · simp only
    cases hw : wait_loop w fuel 0 with
    | ret errno => simp only; split_ifs <;> simp
    | exit c => simp
    | crash => simp
    | spin => simp
  · simp
  · simp
/-! ## Proofs: the job list -/

theorem lseg_nil (h : Heap) (p q : Ptr) : lseg h p [] q ↔ p = q := by
  simp [lseg]

theorem lseg_cons (h : Heap) (p q : Ptr) (a : Nat) (pid : Int) (l : List (Nat × Int)) :
    lseg h p ((a, pid) :: l) q ↔ p = some a ∧ ∃ nx, h a = some ⟨pid, nx⟩ ∧ lseg h nx l q := by
  simp [lseg]

theorem lseg_append (h : Heap) : ∀ (l1 l2 : List (Nat × Int)) (p q : Ptr),
    lseg h p (l1 ++ l2) q ↔ ∃ m, lseg h p l1 m ∧ lseg h m l2 q
  | [], l2, p, q => by simp [lseg]
  | (a, pid) :: l1, l2, p, q => by
    simp only [List.cons_append, lseg_cons, lseg_append h l1 l2]
    constructor
    · rintro ⟨hp, nx, hn, m, h1, h2⟩
      exact ⟨m, ⟨hp, nx, hn, h1⟩, h2⟩
    · rintro ⟨m, ⟨hp, nx, hn, h1⟩, h2⟩
      exact ⟨hp, nx, hn, m, h1, h2⟩

theorem lseg_frame (h h2 : Heap) : ∀ (l : List (Nat × Int)) (p q : Ptr),
    (∀ x ∈ l, h2 x.1 = h x.1) → lseg h p l q → lseg h2 p l q
  | [], _, _, _, hl => by simpa [lseg] using hl
  | (a, pid) :: l, p, q, hf, hl => by
    rw [lseg_cons] at hl ⊢
    obtain ⟨hp, nx, hn, hr⟩ := hl
    refine ⟨hp, nx, ?_, lseg_frame h h2 l nx q (fun x hx => hf x (List.mem_cons_of_mem _ hx)) hr⟩
    rw [hf (a, pid) (List.mem_cons_self _ _)]
    exact hn

theorem lseg_single (h : Heap) (p q : Ptr) (a : Nat) (pid : Int) :
    lseg h p [(a, pid)] q ↔ p = some a ∧ h a = some ⟨pid, q⟩ := by
  rw [lseg_cons]
  constructor
  · rintro ⟨hp, nx, hn, hr⟩
    rw [lseg_nil] at hr
    subst hr
    exact ⟨hp, hn⟩
  · rintro ⟨hp, hn⟩
    exact ⟨hp, q, hn, (lseg_nil h q q).2 rfl⟩

theorem heap_free_ne (h : Heap) (a b : Nat) (hb : b ≠ a) : h.free a b = h b := by
  simp [Heap.free, hb]

theorem heap_set_ne (h : Heap) (a b : Nat) (n : pid_node) (hb : b ≠ a) : h.set a n b = h b := by
  simp [Heap.set, hb]

theorem heap_set_eq (h : Heap) (a : Nat) (n : pid_node) : h.set a n a = some n := by
  simp [Heap.set]

/-- Unlinking the first node. -/
theorem remove_head (h : Heap) (a : Nat) (nx : Ptr) (t : List (Nat × Int))
    (hl : lseg h nx t none) (ha : a ∉ t.map Prod.fst) : lseg (h.free a) nx t none := by
  apply lseg_frame h _ t nx none _ hl
  intro x hx
  apply heap_free_ne
  rintro rfl
  exact ha (List.mem_map_of_mem _ hx)

/-- Unlinking a node that has a predecessor. -/
theorem remove_mid (h : Heap) (head : Ptr) (s0 : List (Nat × Int)) (p : Nat) (pp : Int)
    (a : Nat) (pid : Int) (nx : Ptr) (t : List (Nat × Int))
    (hs : lseg h head (s0 ++ [(p, pp)]) (some a)) (hl : lseg h nx t none)
    (hnd : ((s0 ++ [(p, pp)] ++ (a, pid) :: t).map Prod.fst).Nodup) :
    h p = some ⟨pp, some a⟩ ∧
      lseg ((h.set p ⟨pp, nx⟩).free a) head (s0 ++ [(p, pp)] ++ t) none := by
  rw [lseg_append] at hs
  obtain ⟨m, h1, h2⟩ := hs
  rw [lseg_single] at h2
  obtain ⟨hm, hp⟩ := h2
  subst hm
  refine ⟨hp, ?_⟩
  simp only [List.map_append, List.map_cons, List.map_nil, List.append_assoc,
    List.singleton_append] at hnd
  rw [List.nodup_append] at hnd
  obtain ⟨hn0, hn1, hdis⟩ := hnd
  rw [List.nodup_cons] at hn1
  obtain ⟨hp1, hn2⟩ := hn1
  rw [List.nodup_cons] at hn2
  obtain ⟨ha1, hn3⟩ := hn2
  have hpa : p ≠ a := by
    rintro rfl
    exact hp1 (List.mem_cons_self _ _)
  rw [List.append_assoc, lseg_append]
  refine ⟨some p, ?_, ?_⟩
  · apply lseg_frame h _ s0 head (some p) _ h1
    intro x hx
    have hx0 : x.1 ∈ s0.map Prod.fst := List.mem_map_of_mem _ hx
    have hxp : x.1 ≠ p := by
      rintro rfl
      exact hdis hx0 (List.mem_cons_self _ _)
    have hxa : x.1 ≠ a := by
      rintro rfl
      exact hdis hx0 (List.mem_cons_of_mem _ (List.mem_cons_self _ _))
    rw [heap_free_ne _ _ _ hxa, heap_set_ne _ _ _ _ hxp]
  · rw [List.singleton_append, lseg_cons]
    refine ⟨rfl, nx, ?_, ?_⟩
    · rw [heap_free_ne _ _ _ hpa, heap_set_eq]
    · apply lseg_frame h _ t nx none _ hl
      intro x hx
      have hxt : x.1 ∈ t.map Prod.fst := List.mem_map_of_mem _ hx
      have hxp : x.1 ≠ p := by
        rintro rfl
        exact hp1 (List.mem_cons_of_mem _ hxt)
      have hxa : x.1 ≠ a := by
        rintro rfl
        exact ha1 hxt
      rw [heap_free_ne _ _ _ hxa, heap_set_ne _ _ _ _ hxp]
theorem sweep_lines_running (w : Int → Int × Int) (ws : Int) :
    ∀ (s t : List (Nat × Int)), (∀ n ∈ s, (w n.2).1 = 0) →
      sweep_lines w ws (s ++ t) = sweep_lines w ws t
  | [], _, _ => rfl
  | n :: s, t, h => by
    rw [List.cons_append, sweep_lines, if_pos (h n (List.mem_cons_self _ _))]
    exact sweep_lines_running w ws s t (fun m hm => h m (List.mem_cons_of_mem _ hm))

theorem filter_running_all (w : Int → Int × Int) (s : List (Nat × Int))
    (h : ∀ n ∈ s, (w n.2).1 = 0) : s.filter (still_running w) = s := by
  rw [List.filter_eq_self]
  intro n hn
  simp [still_running, h n hn]

theorem countP_running_all (w : Int → Int × Int) (s : List (Nat × Int))
    (h : ∀ n ∈ s, (w n.2).1 = 0) : s.countP (fun n => !still_running w n) = 0 := by
  rw [List.countP_eq_zero]
  intro n hn
  simp [still_running, h n hn]

theorem getLast?_addr_mem : ∀ (t : List (Nat × Int)), t ≠ [] →
    ∃ l, t.getLast?.map Prod.fst = some l ∧ l ∈ t.map Prod.fst := by
  intro t ht
  rcases List.eq_nil_or_concat t with h | ⟨t0, z, h⟩
  · exact absurd h ht
  · subst h
    exact ⟨z.1, by simp, by simp⟩

theorem lseg_head_mem (h : Heap) (p q : Ptr) (l : List (Nat × Int)) (hl : l ≠ [])
    (hs : lseg h p l q) : ∃ b, p = some b ∧ b ∈ l.map Prod.fst := by
  cases l with
  | nil => exact absurd rfl hl
  | cons x l =>
    obtain ⟨b, pid⟩ := x
    rw [lseg_cons] at hs
    exact ⟨b, hs.1, by simp⟩

theorem cleanup_loop_scan (w : Int → Int × Int) (B : Nat) : ∀ (k : Nat) (t s : List (Nat × Int))
    (r : Registry) (list prev : Ptr) (out : List Char) (ws : Int) (fuel : Nat),
    t.countP (fun n => !still_running w n) = k →
    lseg r.heap r.head s list → lseg r.heap list t none →
    r.tail = (s ++ t).getLast?.map Prod.fst →
    ((s ++ t).map Prod.fst).Nodup →
    prev = s.getLast?.map Prod.fst →
    (∀ n ∈ s, (w n.2).1 = 0) →
    s.length + t.length < B →
    t.length + 1 + k * B ≤ fuel →
    ∃ st, cleanup_loop w fuel list prev { reg := r, out := out, wstatus := ws } = Ctl.ret st ∧
      is_registry st.reg (s ++ t.filter (still_running w)) ∧
      st.out = out ++ (sweep_lines w ws t).1 ∧ st.wstatus = (sweep_lines w ws t).2 := by
  intro k
  induction k using Nat.strong_induction_on with
  | _ k ihk =>
  intro t
  induction t with
  | nil =>
    intro s r list prev out ws fuel _ hs ht htail hnd _ _ _ hfuel
    obtain ⟨fuel, rfl⟩ : ∃ g, fuel = g + 1 := ⟨fuel - 1, by simp at hfuel; omega⟩
    rw [lseg_nil] at ht
    subst ht
    refine ⟨_, by rw [cleanup_loop], ⟨?_, ?_, ?_⟩, ?_, ?_⟩
    · simpa using hs
    · simpa using htail
    · simpa using hnd
    · simp [sweep_lines]
    · simp [sweep_lines]
  | cons x t ih =>
    intro s r list prev out ws fuel hk hs ht htail hnd hprev hrun hB hfuel
    obtain ⟨a, pid⟩ := x
    obtain ⟨fuel, rfl⟩ : ∃ g, fuel = g + 1 := ⟨fuel - 1, by
      simp only [List.length_cons] at hfuel; omega⟩
    rw [lseg_cons] at ht
    obtain ⟨hlist, nx, hnode, hrest⟩ := ht
    subst hlist
    rw [cleanup_loop]
    simp only [hnode]
    by_cases hz : (w pid).1 = 0
    · -- the job is still running: step to the next node
      have hnotpos : ¬ (w pid).1 > 0 := by omega
      simp only [hz, ne_eq, not_true_eq_false, if_false, gt_iff_lt, lt_self_iff_false]
      have hk2 : t.countP (fun n => !still_running w n) = k := by
        rw [List.countP_cons] at hk
        simpa [still_running, hz] using hk
      have := ih (s ++ [(a, pid)]) r nx (some a) out ws fuel hk2
        (by rw [lseg_append]; exact ⟨some a, hs, (lseg_single _ _ _ _ _).2 ⟨rfl, hnode⟩⟩)
        hrest (by simpa using htail) (by simpa using hnd) (by simp)
        (by
          intro n hn
          rcases List.mem_append.1 hn with h1 | h1
          · exact hrun n h1
          · simp only [List.mem_singleton] at h1
            subst h1
            exact hz)
        (by simp only [List.length_append, List.length_cons, List.length_nil] at hB ⊢; omega)
        (by simp only [List.length_cons] at hfuel; omega)
      obtain ⟨st, h1, h2, h3, h4⟩ := this
      refine ⟨st, h1, ?_, ?_, ?_⟩
      · have : List.filter (still_running w) ((a, pid) :: t) =
            (a, pid) :: List.filter (still_running w) t := by
          simp [List.filter_cons, still_running, hz]
        rw [this]
        simpa using h2
      · rw [h3, sweep_lines, if_pos hz]
      · rw [h4, sweep_lines, if_pos hz]
    · -- the wait call returned a value other than 0: the node is unlinked
      obtain ⟨k2, hk2, rfl⟩ : ∃ k2, t.countP (fun n => !still_running w n) = k2 ∧ k = k2 + 1 := by
        rw [List.countP_cons] at hk
        simp only [still_running, hz, decide_False, Bool.not_false, if_true] at hk
        exact ⟨_, rfl, hk.symm⟩
      have hsl : sweep_lines w ws ((a, pid) :: t) =
          (done_line (w pid).1 (if (w pid).1 > 0 then (w pid).2 else ws) ++
            (sweep_lines w (if (w pid).1 > 0 then (w pid).2 else ws) t).1,
           (sweep_lines w (if (w pid).1 > 0 then (w pid).2 else ws) t).2) := by
        rw [sweep_lines, if_neg hz]
      have hfl : List.filter (still_running w) ((a, pid) :: t) =
          List.filter (still_running w) t := by
        simp [List.filter_cons, still_running, hz]
      rw [hsl, hfl]
      generalize (if (w pid).1 > 0 then (w pid).2 else ws) = ws2
      simp only [ne_eq, hz, not_false_eq_true, if_true]
      have hnd2 := hnd
      simp only [List.map_append, List.map_cons] at hnd2
      rw [List.nodup_append] at hnd2
      obtain ⟨hnds, hndt, hdis⟩ := hnd2
      rw [List.nodup_cons] at hndt
      obtain ⟨hat, hndt2⟩ := hndt
      have has : a ∉ s.map Prod.fst := fun hm => hdis hm (List.mem_cons_self _ _)
      have hcount : (s ++ t).countP (fun n => !still_running w n) = k2 := by
        rw [List.countP_append, countP_running_all w s hrun, hk2, Nat.zero_add]
      have hfilt : List.filter (still_running w) (s ++ t) =
          s ++ List.filter (still_running w) t := by
        rw [List.filter_append, filter_running_all w s hrun]
      rcases List.eq_nil_or_concat s with hs0 | ⟨s0, z, hs0⟩
      · -- the node is the first of the list
        subst hs0
        rw [lseg_nil] at hs
        cases t with
        | nil =>
          have htl : r.tail = some a := by simpa using htail
          rw [lseg_nil] at hrest
          simp only [hs, htl, and_self, if_true]
          refine ⟨_, rfl, ⟨?_, ?_, ?_⟩, ?_, ?_⟩ <;> simp [lseg, sweep_lines]
        | cons y t2 =>
          obtain ⟨l, hl1, hl2⟩ := getLast?_addr_mem (y :: t2) (by simp)
          have htl : r.tail = some l := by
            rw [htail, ← hl1]
            simp [List.getLast?_cons_cons]
          have hne : ¬ (some a = r.tail) := by
            rw [htl]
            intro h
            injection h with h
            subst h
            exact hat hl2
          simp only [hs, hne, and_false, if_false, true_and, not_false_eq_true, and_self, if_true]
          have := ihk k2 (by omega) (y :: t2) [] { heap := r.heap.free a, head := nx, tail := r.tail }
            nx none (out ++ done_line (w pid).1 ws2) ws2 fuel hk2
            ((lseg_nil _ _ _).2 rfl) (remove_head r.heap a nx (y :: t2) hrest hat)
            (by rw [htl, ← hl1]; simp) (by simpa using hndt2) (by simp) (by simp)
            (by simp only [List.length_nil, List.length_cons, List.length_append] at hB ⊢; omega)
            (by simp only [List.length_cons, Nat.succ_mul] at hfuel ⊢; omega)
          obtain ⟨st, h1, h2, h3, h4⟩ := this
          refine ⟨st, h1, by simpa using h2, ?_, h4⟩
          rw [h3, List.append_assoc]
      · -- the node has a predecessor
        subst hs0
        obtain ⟨p, pp⟩ := z
        rw [List.concat_eq_append] at hs hprev hrun hB has hcount hfilt htail hnd ⊢
        obtain ⟨b, hb1, hb2⟩ := lseg_head_mem _ _ _ _ (by simp) hs
        have hhead : ¬ (some a = r.head) := by
          rw [hb1]
          intro h
          injection h with h
          subst h
          exact has hb2
        have hprev2 : prev = some p := by simpa using hprev
        subst hprev2
        obtain ⟨hp, hmid⟩ := remove_mid r.heap r.head s0 p pp a pid nx t hs hrest hnd
        cases t with
        | nil =>
          have htl : r.tail = some a := by simpa using htail
          rw [lseg_nil] at hrest
          subst hrest
          simp only [hhead, htl, false_and, if_false, not_false_eq_true, and_self, if_true, hp]
          have := ihk k2 (by omega) (s0 ++ [(p, pp)]) []
            { heap := (r.heap.set p { pid := pp, next := none }).free a, head := r.head,
              tail := some p }
            r.head none (out ++ done_line (w pid).1 ws2) ws2 fuel (by simpa using hcount)
            ((lseg_nil _ _ _).2 rfl) (by simpa using hmid)
            (by simp) (by simpa using hnds) (by simp) (by simp)
            (by simp only [List.length_nil, List.length_cons, List.length_append] at hB ⊢; omega)
            (by simp only [List.length_cons, List.length_append, List.length_nil,
                  Nat.succ_mul] at hfuel hB ⊢; omega)
          obtain ⟨st, h1, h2, h3, h4⟩ := this
          refine ⟨st, h1, ?_, ?_, ?_⟩
          · have hf2 := filter_running_all w _ hrun
            simp only [List.nil_append, hf2] at h2
            simpa using h2
          · rw [h3, List.append_assoc]
            have := sweep_lines_running w ws2 (s0 ++ [(p, pp)]) [] hrun
            simp only [List.append_nil] at this
            rw [this]
          · rw [h4]
            have := sweep_lines_running w ws2 (s0 ++ [(p, pp)]) [] hrun
            simp only [List.append_nil] at this
            rw [this]
        | cons y t2 =>
          obtain ⟨l, hl1, hl2⟩ := getLast?_addr_mem (y :: t2) (by simp)
          have htl : r.tail = some l := by
            rw [htail, ← hl1, List.getLast?_append_of_ne_nil _ (by simp),
              List.getLast?_cons_cons]
          have hne : ¬ (some a = r.tail) := by
            rw [htl]
            intro h
            injection h with h
            subst h
            exact hat hl2
          simp only [hhead, hne, false_and, and_false, if_false, hp]
          have := ihk k2 (by omega) (s0 ++ [(p, pp)] ++ y :: t2) []
            { heap := (r.heap.set p { pid := pp, next := nx }).free a, head := r.head,
              tail := r.tail }
            r.head none (out ++ done_line (w pid).1 ws2) ws2 fuel (by simpa using hcount)
            ((lseg_nil _ _ _).2 rfl) hmid
            (by rw [htl, ← hl1, List.nil_append, List.getLast?_append_of_ne_nil _ (by simp)])
            (by
              simp only [List.nil_append, List.map_append, List.map_cons, List.map_nil]
              rw [List.nodup_append]
              refine ⟨by simpa using hnds, hndt2, ?_⟩
              intro u hu1 hu2
              exact hdis (by simpa using hu1) (List.mem_cons_of_mem _ hu2))
            (by simp) (by simp)
            (by simp only [List.length_nil, List.length_cons, List.length_append] at hB ⊢; omega)
            (by simp only [List.length_cons, List.length_append, List.length_nil,
                  Nat.succ_mul] at hfuel hB ⊢; omega)
          obtain ⟨st, h1, h2, h3, h4⟩ := this
          refine ⟨st, h1, ?_, ?_, ?_⟩
          · rw [List.nil_append, hfilt] at h2
            exact h2
          · rw [h3, List.append_assoc, sweep_lines_running w ws2 _ _ hrun]
          · rw [h4, sweep_lines_running w ws2 _ _ hrun]
theorem cleanup_loop_all_running (w : Int → Int × Int) : ∀ (t : List (Nat × Int)) (fuel : Nat)
    (list prev : Ptr) (st : Sweep), lseg st.reg.heap list t none →
    (∀ n ∈ t, (w n.2).1 = 0) → t.length < fuel →
    cleanup_loop w fuel list prev st = Ctl.ret st
  | _, 0, _, _, _, _, _, hf => by omega
  | [], fuel + 1, list, prev, st, hl, _, _ => by
    rw [lseg_nil] at hl
    subst hl
    rw [cleanup_loop]
  | (a, pid) :: t, fuel + 1, list, prev, st, hl, hrun, hf => by
    rw [lseg_cons] at hl
    obtain ⟨hlist, nx, hnode, hrest⟩ := hl
    subst hlist
    have hz : (w pid).1 = 0 := hrun (a, pid) (List.mem_cons_self _ _)
    rw [cleanup_loop]
    simp only [hnode, hz, ne_eq, not_true_eq_false, if_false, gt_iff_lt, lt_self_iff_false]
    exact cleanup_loop_all_running w t fuel nx (some a) st hrest
      (fun n hn => hrun n (List.mem_cons_of_mem _ hn))
      (by simp only [List.length_cons] at hf; omega)

theorem sweep_lines_terminated (w : Int → Int × Int) : ∀ (t : List (Nat × Int)) (ws : Int),
    (∀ n ∈ t, (w n.2).1 = 0 ∨ ((w n.2).1 = n.2 ∧ 0 < n.2)) →
    (sweep_lines w ws t).1 =
      ((t.filter (fun n => !still_running w n)).map
        (fun n => done_line n.2 (w n.2).2)).flatten
  | [], _, _ => rfl
  | n :: t, ws, h => by
    have ih := fun ws2 => sweep_lines_terminated w t ws2
      (fun m hm => h m (List.mem_cons_of_mem _ hm))
    rw [sweep_lines]
    rcases h n (List.mem_cons_self _ _) with hz | ⟨hp, hpos⟩
    · rw [if_pos hz, ih]
      simp [List.filter_cons, still_running, hz]
    · have hz : (w n.2).1 ≠ 0 := by omega
      rw [if_neg hz]
      simp only [ih]
      have hgt : (w n.2).1 > 0 := by omega
      have hn0 : n.2 ≠ 0 := by omega
      rw [if_pos hgt, hp]
      simp [List.filter_cons, still_running, hp, hn0]

theorem countP_le_length_mul (k n : Nat) (hk : k ≤ n) :
    n + 1 + k * (n + 1) ≤ (n + 1) * (n + 1) := by
  have := Nat.mul_le_mul_right (n + 1) hk
  rw [Nat.succ_mul n (n + 1)]
  omega

theorem lseg_heap_some (h : Heap) : ∀ (l : List (Nat × Int)) (p q : Ptr), lseg h p l q →
    ∀ x ∈ l, h x.1 ≠ none
  | [], _, _, _, _, hx => by simp at hx
  | (a, pid) :: l, p, q, hl, x, hx => by
    rw [lseg_cons] at hl
    obtain ⟨_, nx, hn, hr⟩ := hl
    rcases List.mem_cons.1 hx with rfl | hx
    · simp [hn]
    · exact lseg_heap_some h l nx q hr x hx

theorem register_spec (r : Registry) (nodes : List (Nat × Int)) (a : Nat) (pid : Int)
    (hreg : is_registry r nodes) (hfresh : r.heap a = none) :
    ∃ r2, register r a pid = Ctl.ret r2 ∧ is_registry r2 (nodes ++ [(a, pid)]) := by
  obtain ⟨hl, htail, hnd⟩ := hreg
  have hanew : a ∉ nodes.map Prod.fst := by
    intro hm
    obtain ⟨x, hx, rfl⟩ := List.mem_map.1 hm
    exact lseg_heap_some r.heap nodes r.head none hl x hx hfresh
  have hnd2 : ((nodes ++ [(a, pid)]).map Prod.fst).Nodup := by
    rw [List.map_append, List.nodup_append]
    refine ⟨hnd, by simp, ?_⟩
    intro u hu1 hu2
    simp only [List.map_cons, List.map_nil, List.mem_singleton] at hu2
    subst hu2
    exact hanew hu1
  rcases List.eq_nil_or_concat nodes with h0 | ⟨s0, z, h0⟩
  · subst h0
    rw [lseg_nil] at hl
    have hreg_eq : register r a pid = Ctl.ret
        { heap := r.heap.set a { pid := pid, next := none }, head := some a, tail := some a } := by
      simp only [register, add_node, hl]
    refine ⟨_, hreg_eq, ?_, ?_, ?_⟩
    · simp only [List.nil_append]
      rw [lseg_single]
      exact ⟨rfl, heap_set_eq _ _ _⟩
    · simp
    · exact hnd2
  · subst h0
    obtain ⟨p, pp⟩ := z
    rw [List.concat_eq_append] at hl htail hnd hanew hnd2 ⊢
    obtain ⟨b, hb1, _⟩ := lseg_head_mem _ _ _ _ (by simp) hl
    have htl : r.tail = some p := by simpa using htail
    rw [lseg_append] at hl
    obtain ⟨m, hl1, hl2⟩ := hl
    rw [lseg_single] at hl2
    obtain ⟨hm, hp⟩ := hl2
    subst hm
    have hpa : p ≠ a := by
      rintro rfl
      rw [hfresh] at hp
      cases hp
    have hreg_eq : register r a pid = Ctl.ret
        { heap := (r.heap.set a { pid := pid, next := none }).set p { pid := pp, next := some a },
          head := r.head, tail := some a } := by
      simp only [register, add_node, hb1, htl, heap_set_ne _ _ _ _ hpa, hp]
    refine ⟨_, hreg_eq, ?_, ?_, hnd2⟩
    · simp only
      rw [lseg_append]
      refine ⟨some a, ?_, ?_⟩
      · rw [lseg_append]
        refine ⟨some p, ?_, ?_⟩
        · apply lseg_frame r.heap _ s0 r.head (some p) _ hl1
          intro x hx
          have hx0 : x.1 ∈ s0.map Prod.fst := List.mem_map_of_mem _ hx
          have hxp : x.1 ≠ p := by
            rintro rfl
            simp only [List.map_append, List.map_cons, List.map_nil] at hnd
            rw [List.nodup_append] at hnd
            exact hnd.2.2 hx0 (List.mem_singleton_self _)
          have hxa : x.1 ≠ a := by
            rintro rfl
            exact hanew (by simp [hx0])
          rw [heap_set_ne _ _ _ _ hxp, heap_set_ne _ _ _ _ hxa]
        · rw [lseg_single]
          exact ⟨rfl, heap_set_eq _ _ _⟩
      · rw [lseg_single]
        exact ⟨rfl, by rw [heap_set_ne _ _ _ _ hpa.symm, heap_set_eq]⟩
    · simp
/-! ## Proofs: the handler and the launch step -/

theorem sigtstp_handler_off (s : Shell) (h : s.fg_only_mode = 0) :
    sigtstp_handler s =
      Ctl.ret { s with fg_only_mode := 1, out := s.out ++ (enter_message ++ [NUL]) } := by
  simp only [sigtstp_handler, h, ne_eq, not_true_eq_false, if_false, write_stdout]
  rw [if_pos (by decide)]
  simp only [Ctl.bind_ret]
  have : (literal enter_message).take 51 = enter_message ++ [NUL] := by decide
  rw [this]

theorem sigtstp_handler_on (s : Shell) (h : s.fg_only_mode ≠ 0) :
    sigtstp_handler s =
      Ctl.ret { s with fg_only_mode := 0, out := s.out ++ (exit_message ++ [NUL]) } := by
  simp only [sigtstp_handler, h, ne_eq, not_false_eq_true, if_true, write_stdout]
  rw [if_pos (by decide)]
  simp only [Ctl.bind_ret]
  have : (literal exit_message).take 31 = exit_message ++ [NUL] := by decide
  rw [this]

theorem bg_proc_parent (command : command_info) (env : MainEnv) (h0 : env.fork_ret ≠ 0) :
    ∃ out, bg_proc command env = Forked.parent out env.fork_ret := by
  unfold bg_proc
  by_cases h1 : env.fork_ret = -1
  · rw [if_pos h1, h1]
    exact ⟨_, rfl⟩
  · rw [if_neg h1, if_neg h0]
    exact ⟨_, rfl⟩

theorem fg_proc_parent (command : command_info) (env : MainEnv) (h0 : env.fork_ret ≠ 0) :
    ∃ out status, fg_proc command env = Forked.parent out status := by
  unfold fg_proc
  split_ifs
  · exact ⟨_, _, rfl⟩
  · exact ⟨_, _, rfl⟩
  · exact ⟨_, _, rfl⟩
  · exact ⟨_, _, rfl⟩

theorem lseg_deterministic (h : Heap) : ∀ (l1 l2 : List (Nat × Int)) (p : Ptr),
    lseg h p l1 none → lseg h p l2 none → l1 = l2
  | [], [], _, _, _ => rfl
  | [], (b, q) :: l2, p, h1, h2 => by
    rw [lseg_nil] at h1
    rw [lseg_cons] at h2
    rw [h1] at h2
    cases h2.1
  | (a, pid) :: l1, [], p, h1, h2 => by
    rw [lseg_nil] at h2
    rw [lseg_cons] at h1
    rw [h2] at h1
    cases h1.1
  | (a, pid) :: l1, (b, q) :: l2, p, h1, h2 => by
    rw [lseg_cons] at h1 h2
    obtain ⟨hp1, nx1, hn1, hr1⟩ := h1
    obtain ⟨hp2, nx2, hn2, hr2⟩ := h2
    rw [hp1] at hp2
    injection hp2 with hab
    subst hab
    rw [hn1] at hn2
    injection hn2 with hn2
    injection hn2 with hpq hnx
    subst hpq
    subst hnx
    rw [lseg_deterministic h l1 l2 nx1 hr1 hr2]

/-- The nodes of a list that ends in NULL are distinct: the last component of
`is_registry` follows from the first. -/
theorem lseg_nodup (h : Heap) : ∀ (l : List (Nat × Int)) (p : Ptr),
    lseg h p l none → (l.map Prod.fst).Nodup
  | [], _, _ => by simp
  | (a, pid) :: l, p, hl => by
    have hl0 := hl
    rw [lseg_cons] at hl
    obtain ⟨hp, nx, hn, hr⟩ := hl
    rw [List.map_cons, List.nodup_cons]
    refine ⟨?_, lseg_nodup h l nx hr⟩
    intro hm
    obtain ⟨x, hx, hxa⟩ := List.mem_map.1 hm
    obtain ⟨u, v, huv⟩ := List.append_of_mem hx
    obtain ⟨b, q⟩ := x
    simp only at hxa
    subst hxa
    rw [huv, lseg_append] at hr
    obtain ⟨m, _, h2⟩ := hr
    have hm2 : m = some b := ((lseg_cons _ _ _ _ _ _).1 h2).1
    rw [hm2, ← hp] at h2
    have := lseg_deterministic h _ _ p hl0 h2
    have hlen := congrArg List.length this
    rw [huv] at hlen
    simp only [List.length_cons, List.length_append] at hlen
    omega

/-! ## Claims about input_funcs.c -/

/-- C14, amended.  For every token and every positive process id `p`: the counting pass
finds exactly the occurrences of "$$" met left to right without overlap; a token without
"$$" is returned unchanged; a token with `k > 0` occurrences is returned with each
occurrence replaced by the decimal digits of `p` and every other character kept, when
`expanded_size = len - 2k + k*d + 1` is at most 2049, and otherwise `expand_pid` ends the
process with `exit(1)` and returns nothing; the expanded text has `len - 2k + k*d`
characters, one less than `expanded_size`. -/
theorem expand_pid_spec (token : CStr) (p : Int) (hp : 0 < p) :
    count_dollars (token.length + 1) token 0 = some (occurrences token) ∧
    expand_pid token p =
      (if occurrences token = 0 then Ctl.ret token
       else if expanded_size token (occurrences token) (sprintf_d p).length > 2049
         then Ctl.exit 1
       else Ctl.ret (substitute (sprintf_d p) token)) ∧
    sprintf_d p = Nat.toDigits 10 p.toNat ∧
    (occurrences token = 0 → substitute (sprintf_d p) token = token) ∧
    ((substitute (sprintf_d p) token).length : Int) =
      token.length - 2 * occurrences token + occurrences token * (sprintf_d p).length ∧
    ((substitute (sprintf_d p) token).length : Int) + 1 =
      expanded_size token (occurrences token) (sprintf_d p).length := by
  have hl := (substitute_length (sprintf_d p) token).1
  refine ⟨?_, expand_pid_cases token p hp, ?_, substitute_no_occ _ token, ?_, ?_⟩
  · rw [count_dollars_eq _ _ _ (by omega)]; simp
  · unfold sprintf_d
    rw [if_neg (by omega)]
    congr 1
    omega
  · rw [hl]; ring
  · rw [hl, expanded_size]

/-- Witness for C14 amended: the token `a$$b` with process id 1234 expands to `a1234b`. -/
theorem expand_pid_spec_witness :
    (0 : Int) < 1234 ∧ expand_pid "a$$b".toList 1234 = Ctl.ret "a1234b".toList := by
  refine ⟨by decide, ?_⟩
  rw [(expand_pid_spec "a$$b".toList 1234 (by decide)).2.1]
  decide

set_option maxRecDepth 100000 in
/-- Counterexample for C14: for the token made of 410 copies of "$$" (820 characters, a
legal input line) and the process id 12345, `expand_pid` does not return a string: the
expansion would need 2051 bytes and the function calls `exit(1)`. -/
theorem expand_pid_exits_on_long_expansion :
    (List.replicate 820 DOLLAR).length ≤ 2048 ∧
    expand_pid (List.replicate 820 DOLLAR) 12345 = Ctl.exit 1 := by
  decide

/-- C15, evaluation at the failing input.  The line `&` is accepted by `arg_str`, and
for every process id `tokenize` returns with `args[0]` equal to NULL: the argument vector
is empty. -/
theorem tokenize_null_program_name (getpid : Int) :
    arg_str (some (AMP ++ [NEWLINE])) = Ctl.ret (some AMP) ∧
    tokenize AMP getpid =
      Ctl.ret { args := [none, none], stdin_file := none, stdout_file := none,
                background := 1 } ∧
    argv [none, none] = [] := by
  refine ⟨by decide, ?_, by decide⟩
  have h := (tokenize_of_expand AMP getpid [AMP] (by decide)
    (by rw [show tokens AMP = [AMP] from by decide]
        exact expand_all_no_dollars getpid [AMP] (by decide))).1
  rw [h]
  decide

set_option maxRecDepth 1000000 in
/-- C16, evaluation at the failing input.  The line of 512 one-letter arguments (1023
characters) is accepted by `arg_str`, and for every process id `tokenize` stores to
`args[512]`, one cell past the end of the array of 512 pointers. -/
theorem tokenize_writes_past_array (getpid : Int) :
    arg_str (some line512) = Ctl.ret (some line512.dropLast) ∧
    ∃ ws, tokenize_writes line512.dropLast getpid = Ctl.ret ws ∧ 512 ∈ ws := by
  have hacc : arg_str (some line512) = Ctl.ret (some line512.dropLast) := by decide
  have htok : tokens line512.dropLast = List.replicate 512 ['a'] := by decide
  have hne : tokens line512.dropLast ≠ [] := by rw [htok]; decide
  have hex : expand_all getpid (tokens line512.dropLast) = Ctl.ret (List.replicate 512 ['a']) := by
    rw [htok]
    apply expand_all_no_dollars
    intro t ht
    rw [List.eq_of_mem_replicate ht]
    decide
  refine ⟨hacc, _, (tokenize_of_expand _ getpid _ hne hex).2, ?_⟩
  apply List.mem_append_left
  rw [List.length_replicate]
  decide
/-! ## Claims about shell_process.c: signals and redirection -/

/-- C12.  The signal dispositions of the three roles.  The parent's set-up installs
SIG_IGN for SIGINT and `sigtstp_handler` for SIGTSTP; the foreground child installs
SIG_DFL for SIGINT and SIG_IGN for SIGTSTP; the background child installs SIG_IGN for
SIGTSTP and makes no `sigaction` call for SIGINT, so that it keeps the disposition
inherited from the parent, SIG_IGN; every `sigaction` installed has the full signal mask
and flags 0.  This holds whatever the command and whatever the answers of the system. -/
theorem signal_dispositions (command : command_info) (env : ChildEnv) :
    sigactions main_signals =
      [(SIGINT, { sa_handler := .SIG_IGN, sa_mask := fun _ => true, sa_flags := 0 }),
       (SIGTSTP, { sa_handler := .sigtstp_handler, sa_mask := fun _ => true, sa_flags := 0 })] ∧
    sigactions (fg_child command env) =
      [(SIGINT, { sa_handler := .SIG_DFL, sa_mask := fun _ => true, sa_flags := 0 }),
       (SIGTSTP, { sa_handler := .SIG_IGN, sa_mask := fun _ => true, sa_flags := 0 })] ∧
    sigactions (bg_child command env) =
      [(SIGTSTP, { sa_handler := .SIG_IGN, sa_mask := fun _ => true, sa_flags := 0 })] ∧
    (∀ init, dispositions init main_signals SIGINT = .SIG_IGN ∧
      dispositions init main_signals SIGTSTP = .sigtstp_handler) ∧
    (∀ init, dispositions init (fg_child command env) SIGINT = .SIG_DFL ∧
      dispositions init (fg_child command env) SIGTSTP = .SIG_IGN) ∧
    (∀ init, dispositions init (bg_child command env) SIGINT = init SIGINT ∧
      dispositions init (bg_child command env) SIGTSTP = .SIG_IGN) ∧
    (∀ init, dispositions (dispositions init main_signals) (bg_child command env) SIGINT =
      .SIG_IGN) ∧
    (∀ x ∈ sigactions main_signals ++ sigactions (fg_child command env) ++
        sigactions (bg_child command env),
      (∀ n, x.2.sa_mask n = true) ∧ x.2.sa_flags = 0) := by
  have hm : sigactions main_signals =
      [(SIGINT, { sa_handler := .SIG_IGN, sa_mask := fun _ => true, sa_flags := 0 }),
       (SIGTSTP, { sa_handler := .sigtstp_handler, sa_mask := fun _ => true, sa_flags := 0 })] :=
    rfl
  have hf := sigactions_fg command env
  have hb := sigactions_bg command env
  refine ⟨hm, hf, hb, ?_, ?_, ?_, ?_, ?_⟩
  · intro init
    simp only [dispositions_eq, hm, List.foldl_cons, List.foldl_nil]
    simp [SIGINT, SIGTSTP]
  · intro init
    simp only [dispositions_eq, hf, List.foldl_cons, List.foldl_nil]
    simp [SIGINT, SIGTSTP]
  · intro init
    simp only [dispositions_eq, hb, List.foldl_cons, List.foldl_nil]
    simp [SIGINT, SIGTSTP]
  · intro init
    simp only [dispositions_eq, hb, hm, List.foldl_cons, List.foldl_nil]
    simp [SIGINT, SIGTSTP]
  · intro x hx
    rw [hm, hf, hb] at hx
    simp only [List.cons_append, List.nil_append, List.mem_cons, List.mem_singleton,
      List.not_mem_nil, or_false] at hx
    rcases hx with rfl | rfl | rfl | rfl | rfl <;> exact ⟨fun _ => rfl, rfl⟩

/-- C11.  Redirection in the forked children, whatever the command and the answers of
the system (an `open` returns -1 or a descriptor above 0, 1 and 2, which are in use).
Background child: when it reaches `execvp`, descriptor 0 refers to `stdin_file`, or to
/dev/null when that is NULL, opened read-only, and descriptor 1 to `stdout_file`, or to
/dev/null, opened write-only/create/truncate with mode 0660; when one of its `open` or
`dup2` calls returns -1 it ends with `exit(1)` and makes no `execvp` call.
Foreground child: the same with the descriptors left as inherited where the file name
is NULL, and only the calls for the names that are set can fail.  With no failure the
child reaches `execvp`. -/
theorem child_redirection (command : command_info) (env : ChildEnv)
    (hin : env.open_in = -1 ∨ 2 < env.open_in) (hout : env.open_out = -1 ∨ 2 < env.open_out) :
    (reaches_exec (bg_child command env) = true →
      fd_table fd_inherited (bg_child command env) 0 =
        .opened (command.stdin_file.getD devnull) [.O_RDONLY] none ∧
      fd_table fd_inherited (bg_child command env) 1 =
        .opened (command.stdout_file.getD devnull) [.O_WRONLY, .O_CREAT, .O_TRUNC]
          (some 0o660)) ∧
    (reaches_exec (fg_child command env) = true →
      fd_table fd_inherited (fg_child command env) 0 =
        (match command.stdin_file with
          | some f => .opened f [.O_RDONLY] none
          | none => .inherited 0) ∧
      fd_table fd_inherited (fg_child command env) 1 =
        (match command.stdout_file with
          | some f => .opened f [.O_WRONLY, .O_CREAT, .O_TRUNC] (some 0o660)
          | none => .inherited 1)) ∧
    ((env.open_in = -1 ∨ env.dup_in = -1 ∨ env.open_out = -1 ∨ env.dup_out = -1) →
      reaches_exec (bg_child command env) = false ∧
      ∃ l, bg_child command env = l ++ [Sys.exit 1]) ∧
    (((command.stdin_file ≠ none ∧ (env.open_in = -1 ∨ env.dup_in = -1)) ∨
      (command.stdout_file ≠ none ∧ (env.open_out = -1 ∨ env.dup_out = -1))) →
      reaches_exec (fg_child command env) = false ∧
      ∃ l, fg_child command env = l ++ [Sys.exit 1]) ∧
    (¬ (env.open_in = -1 ∨ env.dup_in = -1 ∨ env.open_out = -1 ∨ env.dup_out = -1) →
      reaches_exec (bg_child command env) = true) ∧
    (¬ ((command.stdin_file ≠ none ∧ (env.open_in = -1 ∨ env.dup_in = -1)) ∨
      (command.stdout_file ≠ none ∧ (env.open_out = -1 ∨ env.dup_out = -1))) →
      reaches_exec (fg_child command env) = true) := by
  have h0 : env.open_out ≠ 0 := by omega
  have h1' : env.open_in ≠ 1 := by omega
  refine ⟨?_, ?_, ?_, ?_, ?_, ?_⟩
  · intro hr
    unfold bg_child at hr ⊢
    by_cases h1 : env.open_in = -1
    · simp [h1, reaches_exec] at hr
    by_cases h2 : env.dup_in = -1
    · simp [h1, h2, reaches_exec] at hr
    by_cases h3 : env.open_out = -1
    · simp [h1, h2, h3, reaches_exec] at hr
    by_cases h4 : env.dup_out = -1
    · simp [h1, h2, h3, h4, reaches_exec] at hr
    cases hi : command.stdin_file <;> cases ho : command.stdout_file <;>
      cases he : env.exec_fails <;>
      simp [h1, h2, h3, h4, fd_table, out_flags, Ne.symm h0]
  · intro hr
    unfold fg_child fg_child_stdin fg_child_stdout at hr ⊢
    cases hi : command.stdin_file <;> cases ho : command.stdout_file <;>
      simp only [hi, ho] at hr ⊢
    · cases he : env.exec_fails <;> simp [fd_table, fd_inherited]
    · by_cases h3 : env.open_out = -1
      · simp [h3, reaches_exec] at hr
      by_cases h4 : env.dup_out = -1
      · simp [h3, h4, reaches_exec] at hr
      cases he : env.exec_fails <;>
        simp [h3, h4, fd_table, fd_inherited, out_flags, Ne.symm h0]
    · by_cases h1 : env.open_in = -1
      · simp [h1, reaches_exec] at hr
      by_cases h2 : env.dup_in = -1
      · simp [h1, h2, reaches_exec] at hr
      cases he : env.exec_fails <;>
        simp [h1, h2, fd_table, fd_inherited, Ne.symm h1']
    · by_cases h1 : env.open_in = -1
      · simp [h1, reaches_exec] at hr
      by_cases h2 : env.dup_in = -1
      · simp [h1, h2, reaches_exec] at hr
      by_cases h3 : env.open_out = -1
      · simp [h1, h2, h3, reaches_exec] at hr
      by_cases h4 : env.dup_out = -1
      · simp [h1, h2, h3, h4, reaches_exec] at hr
      cases he : env.exec_fails <;>
        simp [h1, h2, h3, h4, fd_table, fd_inherited, out_flags, Ne.symm h0]
  · intro hf
    unfold bg_child
    by_cases h1 : env.open_in = -1
    · simp only [h1, if_true, reaches_exec]
      exact ⟨trivial, [_, _], rfl⟩
    by_cases h2 : env.dup_in = -1
    · simp only [h1, h2, if_true, if_false, reaches_exec]
      exact ⟨trivial, [_, _, _], rfl⟩
    by_cases h3 : env.open_out = -1
    · simp only [h1, h2, h3, if_true, if_false, reaches_exec]
      exact ⟨trivial, [_, _, _, _], rfl⟩
    by_cases h4 : env.dup_out = -1
    · simp only [h1, h2, h3, h4, if_true, if_false, reaches_exec]
      exact ⟨trivial, [_, _, _, _, _], rfl⟩
    · exact absurd hf (by simp [h1, h2, h3, h4])
  · intro hf
    unfold fg_child fg_child_stdin fg_child_stdout
    cases hi : command.stdin_file <;> cases ho : command.stdout_file <;>
      simp only [hi, ho, ne_eq, not_true_eq_false, false_and, false_or, or_false,
        reduceCtorEq, not_false_eq_true, true_and] at hf ⊢
    · by_cases h3 : env.open_out = -1
      · simp only [h3, if_true, reaches_exec]
        exact ⟨trivial, [_, _, _, _], rfl⟩
      by_cases h4 : env.dup_out = -1
      · simp only [h3, h4, if_true, if_false, reaches_exec]
        exact ⟨trivial, [_, _, _, _, _], rfl⟩
      · exact absurd hf (by simp [h3, h4])
    · by_cases h1 : env.open_in = -1
      · simp only [h1, if_true, reaches_exec]
        exact ⟨trivial, [_, _, _, _], rfl⟩
      by_cases h2 : env.dup_in = -1
      · simp only [h1, h2, if_true, if_false, reaches_exec]
        exact ⟨trivial, [_, _, _, _, _], rfl⟩
      · exact absurd hf (by simp [h1, h2])
    · by_cases h1 : env.open_in = -1
      · simp only [h1, if_true, reaches_exec]
        exact ⟨trivial, [_, _, _, _], rfl⟩
      by_cases h2 : env.dup_in = -1
      · simp only [h1, h2, if_true, if_false, reaches_exec]
        exact ⟨trivial, [_, _, _, _, _], rfl⟩
      by_cases h3 : env.open_out = -1
      · simp only [h1, h2, h3, if_true, if_false, reaches_exec]
        exact ⟨trivial, [_, _, _, _, _, _], rfl⟩
      by_cases h4 : env.dup_out = -1
      · simp only [h1, h2, h3, h4, if_true, if_false, reaches_exec]
        exact ⟨trivial, [_, _, _, _, _, _, _], rfl⟩
      · exact absurd hf (by simp [h1, h2, h3, h4])
  · intro hf
    push_neg at hf
    unfold bg_child
    simp [hf.1, hf.2.1, hf.2.2.1, hf.2.2.2, reaches_exec]
  · intro hf
    unfold fg_child fg_child_stdin fg_child_stdout
    cases hi : command.stdin_file <;> cases ho : command.stdout_file <;>
      simp only [hi, ho, ne_eq, not_true_eq_false, false_and, false_or, or_false,
        reduceCtorEq, not_false_eq_true, true_and, not_or] at hf ⊢
    · simp [reaches_exec]
    · simp [hf.1, hf.2, reaches_exec]
    · simp [hf.1, hf.2, reaches_exec]
    · simp [hf.1.1, hf.1.2, hf.2.1, hf.2.2, reaches_exec]

/-- C13.  For every registry (the list of nodes reached from `list`), `exit_shell` makes
exactly one `kill(pid, SIGTERM)` call per node, in list order, and no other `kill` call;
then, when call number `k` of `waitpid(-1, ...)` is the first that returns -1, the
process exits with status 0 if and only if `errno` is ECHILD, printing nothing, and for
any other `errno` it prints `Error during waitpid() in exit function` and exits with
status 1.  Whatever the inputs, `exit_shell` does not return to its caller. -/
theorem exit_shell_spec (h : Heap) (list : Ptr) (nodes : List (Nat × Int))
    (w : Nat → Int × Int) (k fuel : Nat)
    (hl : lseg h list nodes none) (hfirst : ∀ i, i < k → (w i).1 ≠ -1) (hk : (w k).1 = -1)
    (hf1 : nodes.length < fuel) (hf2 : k < fuel) :
    (exit_shell fuel h list w).kills = nodes.map (fun n => (n.2, SIGTERM)) ∧
    ((exit_shell fuel h list w).ending = Ctl.exit 0 ↔ (w k).2 = ECHILD) ∧
    ((w k).2 = ECHILD → (exit_shell fuel h list w).out = []) ∧
    ((w k).2 ≠ ECHILD →
      (exit_shell fuel h list w).ending = Ctl.exit 1 ∧
      (exit_shell fuel h list w).out = "Error during waitpid() in exit function\n".toList) ∧
    (∀ fuel2 h2 list2 w2, (exit_shell fuel2 h2 list2 w2).ending ≠ Ctl.ret ()) := by
  have hkill := kill_loop_lseg h nodes list fuel [] hl hf1
  have hwait := wait_loop_first_failure w k hk k 0 fuel (by omega)
    (fun i _ hik => hfirst i hik) hf2
  have hrun : exit_shell fuel h list w =
      if (w k).2 = ECHILD then
        { kills := nodes.map (fun n => (n.2, SIGTERM)), out := [], ending := Ctl.exit 0 }
      else
        { kills := nodes.map (fun n => (n.2, SIGTERM)),
          out := "Error during waitpid() in exit function\n".toList, ending := Ctl.exit 1 } := by
    unfold exit_shell
    rw [hkill]
    simp only [List.nil_append, hwait]
  refine ⟨?_, ?_, ?_, ?_, exit_shell_never_returns⟩
  · rw [hrun]; split_ifs <;> rfl
  · rw [hrun]
    by_cases he : (w k).2 = ECHILD
    · simp [he]
    · simp [he]
  · intro he
    rw [hrun, if_pos he]
  · intro he
    rw [hrun, if_neg he]
    exact ⟨rfl, rfl⟩

/-- Witness for C11: a background command with output redirected to `out`; standard input
comes from /dev/null and standard output goes to `out`. -/
theorem child_redirection_witness :
    (sample_env.open_in = -1 ∨ 2 < sample_env.open_in) ∧
    (sample_env.open_out = -1 ∨ 2 < sample_env.open_out) ∧
    fd_table fd_inherited (bg_child sample_command sample_env) 0 =
      .opened devnull [.O_RDONLY] none ∧
    fd_table fd_inherited (bg_child sample_command sample_env) 1 =
      .opened "out".toList [.O_WRONLY, .O_CREAT, .O_TRUNC] (some 0o660) :=
  ⟨Or.inr (by decide), Or.inr (by decide),
    (child_redirection sample_command sample_env (Or.inr (by decide)) (Or.inr (by decide))).1
      (by decide)⟩

/-- Witness for C13: two registered jobs, 100 and 200; the third `waitpid` call fails
with ECHILD. -/
theorem exit_shell_spec_witness :
    lseg sample_heap (some 1) [(1, 100), (2, 200)] none ∧
    (sample_waits 2).1 = -1 ∧
    (exit_shell 5 sample_heap (some 1) sample_waits).kills = [(100, SIGTERM), (200, SIGTERM)] ∧
    (exit_shell 5 sample_heap (some 1) sample_waits).ending = Ctl.exit 0 := by
  have hl : lseg sample_heap (some 1) [(1, 100), (2, 200)] none :=
    ⟨rfl, some 2, rfl, rfl, none, rfl, rfl⟩
  have hfirst : ∀ i, i < 2 → (sample_waits i).1 ≠ -1 := by
    intro i hi
    interval_cases i <;> decide
  have h := exit_shell_spec sample_heap (some 1) [(1, 100), (2, 200)] sample_waits 2 5
    hl hfirst (by decide) (by decide) (by decide)
  exact ⟨hl, by decide, h.1, h.2.1.2 (by decide)⟩

/-! ## Claims about the job list -/

/-- C1.  For every registry (nodes linked from `head`, `tail` the last one) and every
assignment of non-blocking wait results to the pids, `cleanup_bg` returns, whatever step
budget at least `(n+1)^2` it is given for `n` jobs, and leaves a registry that holds
exactly the jobs whose wait returned 0 (still running), the same nodes in their original
order; every job whose wait reported termination is gone. -/
theorem cleanup_bg_keeps_running (w : Int → Int × Int) (r : Registry)
    (nodes : List (Nat × Int)) (out : List Char) (ws : Int) (fuel : Nat)
    (hreg : is_registry r nodes)
    (hfuel : (nodes.length + 1) * (nodes.length + 1) ≤ fuel) :
    ∃ st, cleanup_bg w fuel r.head r out ws = Ctl.ret st ∧
      is_registry st.reg (nodes.filter (still_running w)) ∧
      (∀ n ∈ nodes, (w n.2).1 = 0 → n ∈ nodes.filter (still_running w)) ∧
      (∀ n ∈ nodes, (w n.2).1 ≠ 0 → n ∉ nodes.filter (still_running w)) ∧
      (nodes.filter (still_running w)).Sublist nodes := by
  obtain ⟨hl, htail, hnd⟩ := hreg
  have hk : nodes.countP (fun n => !still_running w n) ≤ nodes.length := List.countP_le_length _
  have := cleanup_loop_scan w (nodes.length + 1) _ nodes [] r r.head none out ws fuel rfl
    ((lseg_nil _ _ _).2 rfl) hl (by simpa using htail) (by simpa using hnd) rfl (by simp)
    (by simp) (le_trans (countP_le_length_mul _ _ hk) hfuel)
  obtain ⟨st, h1, h2, _, _⟩ := this
  refine ⟨st, h1, by simpa using h2, ?_, ?_, List.filter_sublist _⟩
  · intro n hn hz
    simp [List.mem_filter, hn, still_running, hz]
  · intro n _ hz
    simp [List.mem_filter, still_running, hz]

/-- Witness for C1: of the jobs 100, 200, 300 the second has terminated; the sweep leaves
100 and 300. -/
theorem cleanup_bg_keeps_running_witness :
    is_registry sample_registry [(1, 100), (2, 200), (3, 300)] ∧
    ∃ st, cleanup_bg sample_waitpid 16 sample_registry.head sample_registry [] 0 = Ctl.ret st ∧
      is_registry st.reg [(1, 100), (3, 300)] := by
  have hreg : is_registry sample_registry [(1, 100), (2, 200), (3, 300)] :=
    ⟨⟨rfl, some 2, rfl, rfl, some 3, rfl, rfl, none, rfl, rfl⟩, rfl, by decide⟩
  obtain ⟨st, h1, h2, _⟩ := cleanup_bg_keeps_running sample_waitpid sample_registry
    [(1, 100), (2, 200), (3, 300)] [] 0 16 hreg (by decide)
  exact ⟨hreg, st, h1, h2⟩

/-- C2.  The registration step of `main` (`add_node` and the linking through `head` and
`tail`), for a registry whose `tail` is its last node and a pid not yet in it, with
`malloc` returning an unused address: the result is the old registry with the new job
appended at the end, and the new pid occurs in it exactly once. -/
theorem register_appends (r : Registry) (nodes : List (Nat × Int)) (a : Nat) (pid : Int)
    (hreg : is_registry r nodes) (hfresh : r.heap a = none)
    (hpid : pid ∉ nodes.map Prod.snd) :
    ∃ r2, register r a pid = Ctl.ret r2 ∧ is_registry r2 (nodes ++ [(a, pid)]) ∧
      ((nodes ++ [(a, pid)]).map Prod.snd).count pid = 1 := by
  obtain ⟨r2, h1, h2⟩ := register_spec r nodes a pid hreg hfresh
  refine ⟨r2, h1, h2, ?_⟩
  rw [List.map_append, List.count_append, List.count_eq_zero_of_not_mem hpid]
  simp

/-- Witness for C2: the job 400 is registered at address 4 after the jobs 100, 200, 300. -/
theorem register_appends_witness :
    is_registry sample_registry [(1, 100), (2, 200), (3, 300)] ∧
    ∃ r2, register sample_registry 4 400 = Ctl.ret r2 ∧
      is_registry r2 [(1, 100), (2, 200), (3, 300), (4, 400)] := by
  have hreg : is_registry sample_registry [(1, 100), (2, 200), (3, 300)] :=
    ⟨⟨rfl, some 2, rfl, rfl, some 3, rfl, rfl, none, rfl, rfl⟩, rfl, by decide⟩
  obtain ⟨r2, h1, h2, _⟩ := register_appends sample_registry [(1, 100), (2, 200), (3, 300)]
    4 400 hreg rfl (by decide)
  exact ⟨hreg, r2, h1, h2⟩

/-- C3.  When the non-blocking wait returns 0 for every registered job, `cleanup_bg`
returns with nothing printed and with the heap, `head` and `tail` exactly as they were;
a second sweep in that situation changes nothing either. -/
theorem cleanup_bg_idle (w : Int → Int × Int) (r : Registry) (nodes : List (Nat × Int))
    (out : List Char) (ws : Int) (fuel : Nat)
    (hreg : is_registry r nodes) (hall : ∀ n ∈ nodes, (w n.2).1 = 0)
    (hfuel : nodes.length < fuel) :
    cleanup_bg w fuel r.head r out ws = Ctl.ret { reg := r, out := out, wstatus := ws } ∧
    (cleanup_bg w fuel r.head r out ws).bind
        (fun st => cleanup_bg w fuel st.reg.head st.reg st.out st.wstatus) =
      cleanup_bg w fuel r.head r out ws := by
  have h1 : cleanup_bg w fuel r.head r out ws =
      Ctl.ret { reg := r, out := out, wstatus := ws } :=
    cleanup_loop_all_running w nodes fuel r.head none _ hreg.1 hall hfuel
  refine ⟨h1, ?_⟩
  rw [h1]
  exact h1

/-- Witness for C3: the three jobs are all still running. -/
theorem cleanup_bg_idle_witness :
    is_registry sample_registry [(1, 100), (2, 200), (3, 300)] ∧
    cleanup_bg idle_waitpid 4 sample_registry.head sample_registry [] 0 =
      Ctl.ret { reg := sample_registry, out := [], wstatus := 0 } := by
  have hreg : is_registry sample_registry [(1, 100), (2, 200), (3, 300)] :=
    ⟨⟨rfl, some 2, rfl, rfl, some 3, rfl, rfl, none, rfl, rfl⟩, rfl, by decide⟩
  exact ⟨hreg, (cleanup_bg_idle idle_waitpid sample_registry [(1, 100), (2, 200), (3, 300)]
    [] 0 4 hreg (fun _ _ => rfl) (by decide)).1⟩

/-- C4.  When each job's wait either returns 0 or returns the job's (positive) pid with
a raw status, the text `cleanup_bg` prints is one line per terminated job, in registry
order, and nothing else; the line of a job with pid `P` and status `s` is
`background pid P is done: exit value C` when `s` is a normal exit with code `C`, and
`background pid P is done: terminated by signal S` when `s` reports signal `S`. -/
theorem cleanup_bg_output (w : Int → Int × Int) (r : Registry) (nodes : List (Nat × Int))
    (out : List Char) (ws : Int) (fuel : Nat)
    (hreg : is_registry r nodes)
    (hw : ∀ n ∈ nodes, (w n.2).1 = 0 ∨ ((w n.2).1 = n.2 ∧ 0 < n.2))
    (hfuel : (nodes.length + 1) * (nodes.length + 1) ≤ fuel) :
    (∃ st, cleanup_bg w fuel r.head r out ws = Ctl.ret st ∧
      st.out = out ++ ((nodes.filter (fun n => !still_running w n)).map
        (fun n => done_line n.2 (w n.2).2)).flatten) ∧
    (∀ (P s C : Int), WIFEXITED s = true → WEXITSTATUS s = C →
      done_line P s = "background pid ".toList ++ sprintf_d P ++
        " is done: exit value ".toList ++ sprintf_d C ++ [NEWLINE]) ∧
    (∀ (P s S : Int), WIFSIGNALED s = true → WTERMSIG s = S →
      done_line P s = "background pid ".toList ++ sprintf_d P ++
        " is done: terminated by signal ".toList ++ sprintf_d S ++ [NEWLINE]) := by
  obtain ⟨hl, htail, hnd⟩ := hreg
  have hk : nodes.countP (fun n => !still_running w n) ≤ nodes.length := List.countP_le_length _
  have := cleanup_loop_scan w (nodes.length + 1) _ nodes [] r r.head none out ws fuel rfl
    ((lseg_nil _ _ _).2 rfl) hl (by simpa using htail) (by simpa using hnd) rfl (by simp)
    (by simp) (le_trans (countP_le_length_mul _ _ hk) hfuel)
  obtain ⟨st, h1, _, h3, _⟩ := this
  refine ⟨⟨st, h1, ?_⟩, ?_, ?_⟩
  · rw [h3, sweep_lines_terminated w nodes ws hw]
  · intro P s C hs hC
    rw [done_line, if_pos hs, hC]
  · intro P s S hs hS
    have hne : WIFEXITED s = false := by
      simp only [WIFSIGNALED, WIFEXITED, Bool.and_eq_true, bne_iff_ne, ne_eq] at hs ⊢
      simpa using hs.1
    rw [done_line, hne, hS]
    simp

/-- Witness for C4: job 200 was killed by signal 9. -/
theorem cleanup_bg_output_witness :
    is_registry sample_registry [(1, 100), (2, 200), (3, 300)] ∧
    ∃ st, cleanup_bg sample_waitpid 16 sample_registry.head sample_registry [] 0 = Ctl.ret st ∧
      st.out = "background pid 200 is done: terminated by signal 9\n".toList := by
  have hreg : is_registry sample_registry [(1, 100), (2, 200), (3, 300)] :=
    ⟨⟨rfl, some 2, rfl, rfl, some 3, rfl, rfl, none, rfl, rfl⟩, rfl, by decide⟩
  obtain ⟨st, h1, h2⟩ := (cleanup_bg_output sample_waitpid sample_registry
    [(1, 100), (2, 200), (3, 300)] [] 0 16 hreg (by decide) (by decide)).1
  refine ⟨hreg, st, h1, ?_⟩
  rw [h2]
  decide

/-- C5, evaluation at the failing input.  With the single job 100 registered and its
`waitpid` call failing (returning -1), `cleanup_bg` prints a completion notice, for the
pid -1 and with the stale value of `wstatus`, and removes the job: the registry is
empty afterwards. -/
theorem cleanup_bg_removes_on_wait_failure :
    is_registry single_registry [(1, 100)] ∧
    ∃ st, cleanup_bg failing_waitpid 4 single_registry.head single_registry [] 0 = Ctl.ret st ∧
      st.reg.head = none ∧ st.reg.tail = none ∧ st.reg.heap 1 = none ∧
      st.out = "background pid -1 is done: exit value 0\n".toList :=
  ⟨⟨⟨rfl, none, rfl, rfl⟩, rfl, by decide⟩, _, rfl, rfl, rfl, rfl, by decide⟩

/-! ## Claims about the handler and the launch step -/

/-- C9, evaluation at the failing input.  The entry message has 50 characters and the
handler passes the count 51 to `write`; the exit message has 30 characters and the
handler passes 31.  In both branches the bytes sent are the message followed by its
terminating NUL: the output ends with a NUL byte, not with the newline of the message. -/
theorem sigtstp_handler_writes (s : Shell) :
    enter_message.length = 50 ∧
    sigtstp_handler { s with fg_only_mode := 0 } =
      Ctl.ret { s with fg_only_mode := 1, out := s.out ++ (enter_message ++ [NUL]) } ∧
    (s.out ++ (enter_message ++ [NUL])).getLast? = some NUL ∧
    exit_message.length = 30 ∧
    sigtstp_handler { s with fg_only_mode := 1 } =
      Ctl.ret { s with fg_only_mode := 0, out := s.out ++ (exit_message ++ [NUL]) } ∧
    (s.out ++ (exit_message ++ [NUL])).getLast? = some NUL := by
  refine ⟨by decide, ?_, ?_, by decide, ?_, ?_⟩
  · simp only [sigtstp_handler, ne_eq, not_true_eq_false, if_false, write_stdout]
    rw [if_pos (by decide)]
    simp only [Ctl.bind_ret]
    have : (literal enter_message).take 51 = enter_message ++ [NUL] := by decide
    rw [this]
  · rw [← List.append_assoc]; simp
  · simp only [sigtstp_handler, ne_eq, one_ne_zero, not_false_eq_true, if_true, write_stdout]
    rw [if_pos (by decide)]
    simp only [Ctl.bind_ret]
    have : (literal exit_message).take 31 = exit_message ++ [NUL] := by decide
    rw [this]
  · rw [← List.append_assoc]; simp

/-- C10.  One invocation of `sigtstp_handler` sets the flag to 0 when it was not 0 and
to 1 when it was 0, and changes nothing else but the output; two consecutive
invocations therefore leave the mode (flag not 0) as it was, and bring the flag back to
its original value for the values 0 and 1 that `fg_only_mode` takes.  Starting from the
default 0, the first invocation sends the entry notice
`Entering foreground-only mode (& is now ignored)` and the second the exit notice
`Exiting foreground-only mode`, in that order (each followed by the NUL byte that the
count passed to `write` includes). -/
theorem sigtstp_handler_toggle (s : Shell) :
    (∃ s1, sigtstp_handler s = Ctl.ret s1 ∧
      s1.fg_only_mode = (if s.fg_only_mode ≠ 0 then 0 else 1) ∧
      s1.reg = s.reg ∧ s1.last_status = s.last_status ∧
      ∃ s2, sigtstp_handler s1 = Ctl.ret s2 ∧
        s2.fg_only_mode = (if s.fg_only_mode ≠ 0 then 1 else 0) ∧
        (s2.fg_only_mode ≠ 0 ↔ s.fg_only_mode ≠ 0) ∧
        (s.fg_only_mode = 0 ∨ s.fg_only_mode = 1 → s2.fg_only_mode = s.fg_only_mode) ∧
        s2.reg = s.reg ∧ s2.last_status = s.last_status ∧
        (s.fg_only_mode = 0 →
          s1.out = s.out ++ (enter_message ++ [NUL]) ∧
          s2.out = s.out ++ (enter_message ++ [NUL]) ++ (exit_message ++ [NUL]))) ∧
    enter_message =
      [NEWLINE] ++ "Entering foreground-only mode (& is now ignored)".toList ++ [NEWLINE] ∧
    exit_message = [NEWLINE] ++ "Exiting foreground-only mode".toList ++ [NEWLINE] := by
  refine ⟨?_, by decide, by decide⟩
  by_cases h0 : s.fg_only_mode = 0
  · refine ⟨_, sigtstp_handler_off s h0, by simp [h0], rfl, rfl, _,
      sigtstp_handler_on _ (by simp), by simp [h0], by simp [h0], ?_, rfl, rfl, ?_⟩
    · intro _
      simp [h0]
    · intro _
      exact ⟨rfl, rfl⟩
  · refine ⟨_, sigtstp_handler_on s h0, by simp [h0], rfl, rfl, _,
      sigtstp_handler_off _ rfl, by simp [h0], by simp [h0], ?_, rfl, rfl, ?_⟩
    · intro h
      rcases h with h | h
      · exact absurd h h0
      · simp [h]
    · intro h
      exact absurd h h0

/-- Witness for C10: the shell in its initial mode. -/
theorem sigtstp_handler_toggle_witness :
    (sample_shell.fg_only_mode = 0 ∨ sample_shell.fg_only_mode = 1) ∧
    ∃ s1, sigtstp_handler sample_shell = Ctl.ret s1 ∧ s1.fg_only_mode = 1 ∧
      ∃ s2, sigtstp_handler s1 = Ctl.ret s2 ∧ s2.fg_only_mode = 0 ∧
        s2.out = (enter_message ++ [NUL]) ++ (exit_message ++ [NUL]) := by
  obtain ⟨s1, h1, h2, _, _, s2, h3, _, _, h4, _, _, h5⟩ :=
    (sigtstp_handler_toggle sample_shell).1
  exact ⟨Or.inl rfl, s1, h1, h2, s2, h3, h4 (Or.inl rfl), (h5 rfl).2⟩

end SmallShell
